import Mathlib

/-!
Verification development for the trajectory ingestion, filtering, clustering,
simplification and persistence engine of the wayou repository
(js/utils.js, js/gps.js, js/app.js, js/storage.js).

Modelling conventions.

* JavaScript numbers are modelled by exact rationals (ℚ); epoch-millisecond
  instants (`Date` values / `getTime()` results) are modelled by integers (ℤ).
  All comparisons that the claims depend on sit far from floating-point
  rounding boundaries, and every addition is folded in the same order as the
  source folds it, so exact arithmetic mirrors the double-precision run.
* The source's great-circle distance `Utils.calculateDistance` is a haversine
  formula built from `sin`, `cos`, `atan2` and `sqrt`; it is transcendental,
  so the development is parametric in a distance function
  `dist : ℚ → ℚ → ℚ → ℚ → ℚ` (arguments `lat1 lng1 lat2 lng2`, result in
  meters).  Every theorem holds for an arbitrary such function; concrete
  witnesses instantiate it with the executable stand-in `flatDist` below.
* The perpendicular-distance comparisons inside the Douglas-Peucker
  simplifier (`storage.js _simplifyPath` / `_pointToLineDistance`) only ever
  compare `Math.sqrt` values with each other and with a nonnegative
  tolerance, and `sqrt` is strictly monotone on nonnegative inputs, so the
  model works with squared distances throughout and compares against the
  squared tolerance.  This changes no branch outcome.
* `JSON.stringify(...).length` (the byte-size the quota check in
  `storage.js _saveToStorage` compares against 5 MiB) depends on JavaScript's
  shortest-decimal number printing, so the storage model is parametric in a
  length function `strLen : SData → ℕ`; concrete instances use the
  conservative structural character count `szLB` below.
-/

/-- Point stored in a live route (`app.js onLocationUpdate` pushes
`{lat, lng, timestamp, accuracy}`). -/
structure Pt where
  lat : ℚ
  lng : ℚ
  timestamp : ℤ
  accuracy : ℚ
deriving DecidableEq

/-- Absolute value written with an explicit comparison so that concrete
evaluations reduce inside the kernel. -/
def qabs (q : ℚ) : ℚ :=
  if q < 0 then -q else q

/-- Concrete nonnegative stand-in used to instantiate the abstracted
great-circle distance in witnesses and counterexamples (the source's
haversine is transcendental; all theorems are parametric in the distance
function). -/
def flatDist (lat1 lng1 lat2 lng2 : ℚ) : ℚ :=
  qabs (lat2 - lat1) + qabs (lng2 - lng1)

/-- JavaScript `Math.round`: round half toward positive infinity. -/
def jsRound (q : ℚ) : ℤ :=
  Int.floor (q + 1/2)

/-- Coordinate rounding `Math.round(x * 1000000) / 1000000` from
`storage.js _serializeData` / `_compressPoints`. -/
def round6 (q : ℚ) : ℚ :=
  (jsRound (q * 1000000) : ℚ) / 1000000

/-- Squared point-to-segment distance, translated from
`storage.js _pointToLineDistance` with the final `Math.sqrt` dropped
(only the square is ever compared, see the header note). -/
def perpDistSq (point lineStart lineEnd : Pt) : ℚ :=
  let a := point.lat - lineStart.lat
  let b := point.lng - lineStart.lng
  let c := lineEnd.lat - lineStart.lat
  let d := lineEnd.lng - lineStart.lng
  let dot := a * c + b * d
  let lenSq := c * c + d * d
  let param := if lenSq ≠ 0 then dot / lenSq else -1
  let xx := if param < 0 then lineStart.lat
            else if 1 < param then lineEnd.lat
            else lineStart.lat + param * c
  let yy := if param < 0 then lineStart.lng
            else if 1 < param then lineEnd.lng
            else lineStart.lng + param * d
  let dx := point.lat - xx
  let dy := point.lng - yy
  dx * dx + dy * dy

/-- List elements paired with their indices, starting at `n`. -/
def withIdxFrom (n : ℕ) : List α → List (ℕ × α)
  | [] => []
  | a :: as => (n, a) :: withIdxFrom (n + 1) as

/-- Scan of `storage.js _simplifyPath`'s `for` loop: running maximum of the
(squared) chord distance together with the index where it was attained,
updating only on strict improvement (`distance > maxDistance`). -/
def farthestAux (p0 pe : Pt) : List (ℕ × Pt) → ℚ × ℕ → ℚ × ℕ
  | [], acc => acc
  | (i, p) :: rest, acc =>
      let d := perpDistSq p p0 pe
      farthestAux p0 pe rest (if acc.1 < d then (d, i) else acc)

/-- Maximum squared chord distance and its index over the interior points
(indices `1 .. length-2`), initialised to `(0, 0)` as in the source. -/
def farthestPt (pts : List Pt) (p0 pe : Pt) : ℚ × ℕ :=
  farthestAux p0 pe (withIdxFrom 1 ((pts.drop 1).dropLast)) (0, 0)

/-- Fuel-indexed translation of `storage.js _simplifyPath`.  The fuel only
bounds the recursion depth (the source recursion always terminates with
fuel `points.length`, see `simplifyPathF_fuel_irrelevant`); when fuel runs
out the input is returned unchanged. -/
def simplifyPathF (tolSq : ℚ) : ℕ → List Pt → List Pt
  | 0, pts => pts
  | _ + 1, [] => []
  | fuel + 1, p0 :: rest =>
      if (p0 :: rest).length ≤ 2 then p0 :: rest
      else
        let pe := (p0 :: rest).getLast (List.cons_ne_nil p0 rest)
        let fm := farthestPt (p0 :: rest) p0 pe
        if tolSq < fm.1 then
          (simplifyPathF tolSq fuel ((p0 :: rest).take (fm.2 + 1))).dropLast
            ++ simplifyPathF tolSq fuel ((p0 :: rest).drop fm.2)
        else [p0, pe]

/-- `storage.js _simplifyPath(points, tolerance)` with tolerance squared;
fuel `points.length` always suffices. -/
def simplifyPath (tolSq : ℚ) (pts : List Pt) : List Pt :=
  simplifyPathF tolSq pts.length pts

/-- Squared simplification tolerance: the source calls
`_simplifyPath(points, 0.00001)`. -/
def simTolSq : ℚ :=
  (1 / 100000) * (1 / 100000)

/-- Serialized point produced by `storage.js _compressPoints`:
coordinates rounded to 1e-6 degrees, timestamp via `getTime()`,
accuracy via `Math.round`. -/
structure SPoint where
  lat : ℚ
  lng : ℚ
  timestamp : ℤ
  accuracy : ℤ
deriving DecidableEq

/-- Per-point rounding performed by `storage.js _compressPoints`. -/
def roundSPoint (p : Pt) : SPoint :=
  ⟨round6 p.lat, round6 p.lng, p.timestamp, jsRound p.accuracy⟩

/-- `storage.js _compressPoints` (the constructor fixes `this.compression`
to `true`, so the `!this.compression` disjunct of the guard is constant
`false` and only the length check remains). -/
def compressPoints (pts : List Pt) : List SPoint :=
  if pts.length < 10 then pts.map roundSPoint
  else (simplifyPath simTolSq pts).map roundSPoint

/-- Finalized or live route as held by the app (`app.js`): `points`,
`startTime`, optional `endTime` (absent while live), running `distance`. -/
structure Route where
  id : ℕ
  points : List Pt
  startTime : ℤ
  endTime : Option ℤ
  distance : ℚ
deriving DecidableEq

/-- Stay cluster as held by the app (`app.js checkStayArea`): centroid is
the first fix that created it, `drawn` is the one-way promotion flag. -/
structure StayArea where
  lat : ℚ
  lng : ℚ
  startTime : ℤ
  endTime : ℤ
  duration : ℤ
  drawn : Bool
deriving DecidableEq

/-- The object `app.js saveData` hands to `storage.saveToStorage`
(the part_001 version also passes the live `currentRoute`). -/
structure AppData where
  routes : List Route
  stayAreas : List StayArea
  totalDistance : ℚ
  currentRoute : Option Route
deriving DecidableEq

/-- Serialized route produced by `storage.js _serializeData`. -/
structure SRoute where
  id : ℕ
  points : List SPoint
  startTime : ℤ
  endTime : Option ℤ
  distance : ℤ
deriving DecidableEq

/-- Serialized stay area produced by `storage.js _serializeData`; note that
the `drawn` flag is NOT serialized. -/
structure SArea where
  lat : ℚ
  lng : ℚ
  startTime : ℤ
  endTime : ℤ
  duration : ℤ
deriving DecidableEq

/-- Serialized snapshot produced by `storage.js _serializeData`.  The
source stores the version string `'2.1'`; only (in)equality of versions is
ever used, so it is modelled by the numeral `21`. -/
structure SData where
  routes : List SRoute
  stayAreas : List SArea
  totalDistance : ℤ
  lastSaved : ℤ
  version : ℕ
deriving DecidableEq

/-- `storage.js _serializeData(data)`; `now` models `Date.now()`.
Note that `data.currentRoute` (passed in by `app.js saveData`, part_001) is
not read: the serialized snapshot never contains the live route. -/
def serializeData (now : ℤ) (d : AppData) : SData :=
  { routes := d.routes.map (fun r =>
      ⟨r.id, compressPoints r.points, r.startTime, r.endTime, jsRound r.distance⟩),
    stayAreas := d.stayAreas.map (fun a =>
      ⟨round6 a.lat, round6 a.lng, a.startTime, a.endTime, a.duration⟩),
    totalDistance := jsRound d.totalDistance,
    lastSaved := now,
    version := 21 }

/-- What `storage.js loadFromStorage` returns on success.  The returned
object literal has keys `routes`, `stayAreas`, `totalDistance`, `lastSaved`
only; in particular it never carries a `currentRoute` key, which is why the
restore branch of `app.js loadSavedData` (part_001) can never fire.  The
field is kept here (always `none`) so that branch can be modelled
faithfully. -/
structure LoadedData where
  routes : List Route
  stayAreas : List StayArea
  totalDistance : ℚ
  lastSaved : ℤ
  currentRoute : Option Route
deriving DecidableEq

/-- Deserialization performed inside `storage.js loadFromStorage` on a
parsed snapshot.  `new Date(ms)`/`getTime()` are mutually inverse on ℤ, so
timestamps pass through; `route.endTime ? new Date(route.endTime) : null`
maps the epoch instant `0` (falsy) to `null`; deserialized stay areas carry
no `drawn` key, i.e. the flag reads back as `false`. -/
def deserializeData (sd : SData) : LoadedData :=
  { routes := sd.routes.map (fun r =>
      ⟨r.id,
       r.points.map (fun p => ⟨p.lat, p.lng, p.timestamp, (p.accuracy : ℚ)⟩),
       r.startTime,
       match r.endTime with
       | some t => if t = 0 then none else some t
       | none => none,
       (r.distance : ℚ)⟩),
    stayAreas := sd.stayAreas.map (fun a =>
      ⟨a.lat, a.lng, a.startTime, a.endTime, a.duration, false⟩),
    totalDistance := (sd.totalDistance : ℚ),
    lastSaved := sd.lastSaved,
    currentRoute := none }

/-- Durable blob under the primary storage key.  `wellFormed` is a blob
that parses and has the serialized shape; `malformed` covers both
unparseable JSON and parseable JSON whose field accesses throw inside the
`try` of `loadFromStorage` (both land in the same `catch`). -/
inductive Blob
  | wellFormed (sd : SData)
  | malformed
deriving DecidableEq

/-- JSON.parse plus the field accesses of `loadFromStorage`, as a total
function: `none` models the thrown exception. -/
def parseBlob : Blob → Option SData
  | .wellFormed sd => some sd
  | .malformed => none

/-- The two `localStorage` keys the store uses: `daedongMap_data` and
`daedongMap_data_backup`. -/
structure Store where
  primary : Option Blob
  backup : Option Blob
deriving DecidableEq

/-- `storage.js loadFromStorage`: returns the deserialized data (or `none`)
together with the updated store.  On a parse/shape failure the `catch`
block runs `_backupCorruptedData`, which copies the bad blob to the backup
key and removes the primary key. -/
def loadFromStorage (st : Store) : Option LoadedData × Store :=
  match st.primary with
  | none => (none, st)
  | some b =>
    match parseBlob b with
    | some sd => (some (deserializeData sd), st)
    | none => (none, { primary := none, backup := some b })

/-- Storage quota `this.maxStorageSize = 5 * 1024 * 1024` from
`storage.js`. -/
def maxStorageSize : ℕ :=
  5 * 1024 * 1024

/-- `storage.js _cleanupOldData`: keep only routes whose `startTime` is
strictly newer than thirty days before `now`. -/
def cleanupOldData (now : ℤ) (d : AppData) : AppData :=
  { d with routes :=
      d.routes.filter (fun r => decide (now - 30 * 24 * 60 * 60 * 1000 < r.startTime)) }

/-- Fuel-indexed translation of `storage.js _saveToStorage`.  `strLen`
abstracts `JSON.stringify(...).length` (see the header note).  When the
serialized size exceeds the quota the source calls `_cleanupOldData` and
then literally `return this._saveToStorage(data)`, i.e. it recurses with no
retry bound; `none` models a run of the source that is still recursing
after `fuel` size checks.  On success the snapshot is written under the
primary key and `true` is returned (modelled by `some` of the updated
store). -/
def saveToStorage (strLen : SData → ℕ) (now : ℤ) :
    ℕ → AppData → Store → Option Store
  | 0, _, _ => none
  | fuel + 1, d, st =>
    let sd := serializeData now d
    if maxStorageSize < strLen sd then
      saveToStorage strLen now fuel (cleanupOldData now d) st
    else
      some { st with primary := some (.wellFormed sd) }

/-- Conservative structural character count for the JSON text of a
snapshot, used to instantiate the abstract `strLen`: every serialized point
object occupies at least 46 characters
(`{"lat":_,"lng":_,"timestamp":_,"accuracy":_},`), every route wrapper at
least 45, every stay area at least 46, and the top-level skeleton at least
60.  The real `JSON.stringify` length dominates this count, so any input
`szLB` sends over the quota is over the quota in the source as well. -/
def szLB (sd : SData) : ℕ :=
  (sd.routes.map (fun r => 45 + 46 * r.points.length)).sum
    + 46 * sd.stayAreas.length + 60

/-- Raw geolocation sample as delivered to `gps.js _onLocationUpdate`
(`position.coords` plus the `new Date()` the handler takes). -/
structure PositionFix where
  lat : ℚ
  lng : ℚ
  accuracy : ℚ
  speed : Option ℚ
  timestamp : ℤ
deriving DecidableEq

/-- The `locationData` object `gps.js _onLocationUpdate` builds for an
accepted fix; `isTracking` is `this.isTracking && !this.isPaused`. -/
structure LocationData where
  lat : ℚ
  lng : ℚ
  accuracy : ℚ
  speed : ℚ
  timestamp : ℤ
  isTracking : Bool
deriving DecidableEq

/-- Mutable state of `gps.js GPSTracker` that `_onLocationUpdate` reads and
writes: `count` is `this.locationUpdateCount` (incremented on every
processed fix, accepted or not; reset by `startTracking`). -/
structure GPSState where
  isTracking : Bool
  isPaused : Bool
  lastValid : Option LocationData
  count : ℕ
deriving DecidableEq

/-- Outcome of one `gps.js _onLocationUpdate` call. -/
inductive GpsResult
  | accepted (ld : LocationData)
  | rejectedLowAccuracy (acc : ℚ)
  | rejectedSpeed
deriving DecidableEq

/-- State after the call, the outcome, and whether `callbacks.onError` was
invoked for it. -/
structure GpsOut where
  state : GPSState
  result : GpsResult
  errorReported : Bool
deriving DecidableEq

/-- IEEE semantics of the source's
`calculatedSpeed = distance / timeDiff; calculatedSpeed > 55.6` for a
haversine distance `d ≥ 0`: at `timeDiff = 0` the quotient is `+∞` when
`d > 0` (comparison true) and `NaN` when `d = 0` (comparison false); for
`timeDiff ≠ 0` the rational quotient has the same sign and order relation
to `55.6` as the float quotient. -/
def speedRejects (d td : ℚ) : Bool :=
  if td = 0 then decide (0 < d) else decide ((55.6 : ℚ) < d / td)

/-- Translation of `gps.js _onLocationUpdate` (the throttling wrapper is a
timing concern outside this model; `dist` abstracts
`Utils.calculateDistance`).  Branch order as in the source: increment the
counter, accuracy gate (with `onError` reported), implied-speed gate
(silent `return`), then accept and update `lastValidLocation`. -/
def gpsStep (dist : ℚ → ℚ → ℚ → ℚ → ℚ) (s : GPSState) (f : PositionFix) : GpsOut :=
  let count := s.count + 1
  let accuracyThreshold : ℚ := if count < 5 then 200 else 100
  if accuracyThreshold < f.accuracy then
    { state := { s with count := count },
      result := .rejectedLowAccuracy f.accuracy,
      errorReported := true }
  else
    let ld : LocationData :=
      ⟨f.lat, f.lng, f.accuracy, f.speed.getD 0, f.timestamp, s.isTracking && !s.isPaused⟩
    match s.lastValid with
    | some lv =>
      let d := dist lv.lat lv.lng f.lat f.lng
      let td := ((f.timestamp - lv.timestamp : ℤ) : ℚ) / 1000
      if speedRejects d td then
        { state := { s with count := count },
          result := .rejectedSpeed,
          errorReported := false }
      else
        { state := { s with count := count, lastValid := some ld },
          result := .accepted ld,
          errorReported := false }
    | none =>
      { state := { s with count := count, lastValid := some ld },
        result := .accepted ld,
        errorReported := false }

/-- Run the GPS handler over a list of fixes, collecting each outcome and
whether it was reported through `onError`. -/
def runGps (dist : ℚ → ℚ → ℚ → ℚ → ℚ) : GPSState → List PositionFix → List (GpsResult × Bool)
  | _, [] => []
  | s, f :: rest =>
    let o := gpsStep dist s f
    (o.result, o.errorReported) :: runGps dist o.state rest

/-- GPS state right after `gps.js startTracking`: tracking, not paused, no
last valid location, update counter reset to 0. -/
def initGps : GPSState :=
  ⟨true, false, none, 0⟩

/-- Accuracy threshold exactly as the claim (spec §4.1) words it: selected
by the number of previously ACCEPTED fixes.  Stated for comparison with the
source, which selects by the number of received fixes. -/
def specAccuracyThreshold (acceptedCountSoFar : ℕ) : ℚ :=
  if acceptedCountSoFar < 5 then 200 else 100

/-- Stay threshold `this.STAY_THRESHOLD = 3600000` (one hour). -/
def stayThreshold : ℤ :=
  3600000

/-- Stay radius `this.STAY_RADIUS = 50` meters. -/
def stayRadius : ℚ :=
  50

/-- One observed fix for the stay-cluster detector. -/
structure StayFix where
  lat : ℚ
  lng : ℚ
  t : ℤ
deriving DecidableEq

/-- Translation of `app.js checkStayArea(lat, lng, timestamp)`.  The source
scans `stayAreas` from the highest index down (`for i = length-1; i >= 0`)
and updates the first area within `STAY_RADIUS`: `endTime = timestamp`,
`duration = endTime - startTime`, and if `duration ≥ STAY_THRESHOLD` and
the area is not yet `drawn`, it draws the marker and sets `drawn = true`.
If no area matches, a fresh cluster is pushed.  The second component is the
index of the area for which the promotion event (`map.drawStayArea` plus
the `drawn` flip) fired, if any. -/
def checkStayArea (dist : ℚ → ℚ → ℚ → ℚ → ℚ) (areas : List StayArea)
    (lat lng : ℚ) (t : ℤ) : List StayArea × Option ℕ :=
  match (withIdxFrom 0 areas).reverse.find?
      (fun pr => decide (dist pr.2.lat pr.2.lng lat lng ≤ stayRadius)) with
  | some (i, a) =>
    let dur := t - a.startTime
    let promo := decide (stayThreshold ≤ dur) && !a.drawn
    (areas.set i { a with endTime := t, duration := dur, drawn := a.drawn || promo },
     if promo then some i else none)
  | none =>
    (areas ++ [⟨lat, lng, t, t, 0, false⟩], none)

/-- Fold `checkStayArea` over a fix sequence, keeping the final area list. -/
def stayRun (dist : ℚ → ℚ → ℚ → ℚ → ℚ) (areas : List StayArea) :
    List StayFix → List StayArea
  | [] => areas
  | f :: fs => stayRun dist (checkStayArea dist areas f.lat f.lng f.t).1 fs

/-- Fold `checkStayArea` over a fix sequence, collecting the promotion
event (if any) of every step. -/
def stayPromos (dist : ℚ → ℚ → ℚ → ℚ → ℚ) (areas : List StayArea) :
    List StayFix → List (Option ℕ)
  | [] => []
  | f :: fs =>
    let out := checkStayArea dist areas f.lat f.lng f.t
    out.2 :: stayPromos dist out.1 fs

/-- Whether the area at index `j` currently has its `drawn` flag set
(`false` for an index that does not exist yet). -/
def drawnFlag (areas : List StayArea) (j : ℕ) : Bool :=
  match areas.get? j with
  | some a => a.drawn
  | none => false

/-- State of `app.js DaedongMapApp` (part_001 version) that the tracked
claims touch, together with the `GPSTracker` booleans that feed
`locationData.isTracking`. -/
structure AppState where
  isTracking : Bool
  isPaused : Bool
  routes : List Route
  currentRoute : Option Route
  stayAreas : List StayArea
  totalDistance : ℚ
  lastPosition : Option (ℚ × ℚ)
deriving DecidableEq

/-- Events driving the app state machine: the GPS callbacks
(`onTrackingStart`, `onTrackingPause`, `onTrackingStop`,
`onLocationUpdate`) and the startup restore `loadSavedData` reading an
arbitrary stored blob. -/
inductive AppEvent
  | trackStart (id : ℕ) (t : ℤ)
  | pauseToggle
  | trackStop (t : ℤ)
  | gpsFix (lat lng accuracy : ℚ) (t : ℤ)
  | loadData (blob : Option Blob)
deriving DecidableEq

/-- Sum of `dist` over consecutive stored points, folded left to right in
the order in which the source accumulated it. -/
def pathDist (dist : ℚ → ℚ → ℚ → ℚ → ℚ) : List Pt → ℚ
  | [] => 0
  | [_] => 0
  | a :: b :: rest => dist a.lat a.lng b.lat b.lng + pathDist dist (b :: rest)

/-- One app transition.  `trackStart` models `gps.js startTracking` (no-op
when already tracking) followed by the `onTrackingStart` callback, which
creates the fresh live route; `pauseToggle` models `pauseTracking`;
`trackStop` models `stopTracking` plus `onTrackingStop`, which finalizes
the live route only when it has more than one point and always clears
`currentRoute` and `lastPosition`; `gpsFix` models `onLocationUpdate` for a
fix the GPS layer delivered (the `data.isTracking` flag is
`isTracking && !isPaused`); `loadData` models `loadSavedData` reading a
stored blob through `loadFromStorage`, including the part_001 branch that
would restore a saved `currentRoute` — a branch that can never fire because
the deserialized object carries no such key. -/
def applyEvent (dist : ℚ → ℚ → ℚ → ℚ → ℚ) (s : AppState) : AppEvent → AppState
  | .trackStart id t =>
    if s.isTracking then s
    else
      { s with isTracking := true, isPaused := false,
               currentRoute := some ⟨id, [], t, none, 0⟩ }
  | .pauseToggle =>
    if s.isTracking then { s with isPaused := !s.isPaused } else s
  | .trackStop t =>
    if s.isTracking then
      let routes :=
        match s.currentRoute with
        | some r =>
          if 1 < r.points.length then s.routes ++ [{ r with endTime := some t }]
          else s.routes
        | none => s.routes
      { s with isTracking := false, isPaused := false, routes := routes,
               currentRoute := none, lastPosition := none }
    else s
  | .gpsFix lat lng accuracy t =>
    match s.currentRoute with
    | some r =>
      if s.isTracking && !s.isPaused then
        let pt : Pt := ⟨lat, lng, t, accuracy⟩
        let add : ℚ :=
          match s.lastPosition with
          | some lp => dist lp.1 lp.2 lat lng
          | none => 0
        { s with
          currentRoute := some { r with points := r.points ++ [pt],
                                        distance := r.distance + add },
          totalDistance := s.totalDistance + add,
          lastPosition := some (lat, lng),
          stayAreas := (checkStayArea dist s.stayAreas lat lng t).1 }
      else s
    | none => s
  | .loadData blob =>
    match blob.bind parseBlob with
    | some sd =>
      let ld := deserializeData sd
      let s1 := { s with routes := ld.routes, stayAreas := ld.stayAreas,
                         totalDistance := ld.totalDistance }
      match ld.currentRoute with
      | some r => if 0 < r.points.length then { s1 with currentRoute := some r } else s1
      | none => s1
    | none => s

/-- App state at startup (`DaedongMapApp` constructor, GPS idle). -/
def initApp : AppState :=
  ⟨false, false, [], none, [], 0, none⟩

/-- Run the app over an event sequence from startup. -/
def applyEvents (dist : ℚ → ℚ → ℚ → ℚ → ℚ) (events : List AppEvent) : AppState :=
  events.foldl (applyEvent dist) initApp

/-- Per-point transformation that one serialize/deserialize round trip
applies to a stored point: coordinates rounded to 1e-6 degrees, accuracy
rounded to a whole number, timestamp unchanged. -/
def ptRound (p : Pt) : Pt :=
  ⟨round6 p.lat, round6 p.lng, p.timestamp, (jsRound p.accuracy : ℚ)⟩

/-- Spec-side statement of the amended round-trip claim (C8): what
`loadFromStorage` reproduces after a committed `_serializeData` snapshot,
written directly as field transformations — coordinates rounded to 1e-6
degrees, distances and accuracies rounded to whole numbers, point lists
Douglas-Peucker-simplified when they have at least 10 points, a live
`endTime` of epoch 0 collapsed to absent, the stay areas' `drawn` flag
reset, and no live `currentRoute`. -/
def expectedRoundTrip (now : ℤ) (d : AppData) : LoadedData :=
  { routes := d.routes.map (fun r =>
      ⟨r.id,
       if r.points.length < 10 then r.points.map ptRound
       else (simplifyPath simTolSq r.points).map ptRound,
       r.startTime,
       match r.endTime with
       | some t => if t = 0 then none else some t
       | none => none,
       (jsRound r.distance : ℚ)⟩),
    stayAreas := d.stayAreas.map (fun a =>
      ⟨round6 a.lat, round6 a.lng, a.startTime, a.endTime, a.duration, false⟩),
    totalDistance := (jsRound d.totalDistance : ℚ),
    lastSaved := now,
    currentRoute := none }

/-- Accuracy threshold exactly as spec §4.1 words it is defined above as
`specAccuracyThreshold`; this is the invariant the stay-cluster proofs
maintain: every stored area has a consistent duration, timestamps bounded
by the given instant, and a `drawn` flag that matches whether its duration
has reached the stay threshold. -/
def IStay (t0 : ℤ) (areas : List StayArea) : Prop :=
  ∀ a ∈ areas, a.duration = a.endTime - a.startTime ∧ a.startTime ≤ a.endTime ∧
    a.endTime ≤ t0 ∧ a.drawn = decide (stayThreshold ≤ a.duration)

/-- Timestamp of the last fix of the list, or `t0` for the empty list. -/
def lastT (t0 : ℤ) (fixes : List StayFix) : ℤ :=
  match fixes.getLast? with
  | some f => f.t
  | none => t0

/-- Invariant tying `app.js onLocationUpdate`'s incremental distance to the
stored point sequence: the live route's `distance` field is the fold of the
distances between consecutive stored points, `lastPosition` mirrors the
last stored point, and no live route exists while tracking is off. -/
def AppInv (dist : ℚ → ℚ → ℚ → ℚ → ℚ) (s : AppState) : Prop :=
  (∀ r, s.currentRoute = some r →
    r.distance = pathDist dist r.points ∧
    (match r.points.getLast? with
     | some p => s.lastPosition = some (p.lat, p.lng)
     | none => s.lastPosition = none)) ∧
  (s.currentRoute = none → s.lastPosition = none) ∧
  (s.isTracking = false → s.currentRoute = none)

/-- Nine identical points: a route short enough to skip simplification. -/
def ptB : Pt :=
  ⟨37, 127, 0, 10⟩

/-- Recent route (startTime = now = 0) with nine points. -/
def routeB : Route :=
  ⟨1, List.replicate 9 ptB, 0, none, 0⟩

/-- App data whose serialized JSON text exceeds the 5 MiB quota (20000
nine-point routes are over 9 MB of JSON) while every route is recent, so
`_cleanupOldData` evicts nothing. -/
def dBig : AppData :=
  ⟨List.replicate 20000 routeB, [], 0, none⟩

/-- C9: for every stored blob that fails to deserialize (malformed JSON or
fields whose access throws), `loadFromStorage` returns `null` without
throwing to the caller, the bad blob is preserved under the backup key
(`daedongMap_data_backup`), and the primary key is cleared. -/
theorem loadFromStorage_quarantines (st : Store)
    (h : st.primary = some Blob.malformed) :
    (loadFromStorage st).1 = none ∧ (loadFromStorage st).2.primary = none ∧
    (loadFromStorage st).2.backup = some Blob.malformed := by
  simp [loadFromStorage, h, parseBlob]

/-- Witness for C9 at a concrete store holding a malformed blob. -/
theorem loadFromStorage_quarantines_witness :
    (Store.mk (some Blob.malformed) none).primary = some Blob.malformed ∧
    ((loadFromStorage ⟨some Blob.malformed, none⟩).1 = none ∧
     (loadFromStorage ⟨some Blob.malformed, none⟩).2.primary = none ∧
     (loadFromStorage ⟨some Blob.malformed, none⟩).2.backup = some Blob.malformed) :=
  ⟨rfl, loadFromStorage_quarantines ⟨some Blob.malformed, none⟩ rfl⟩

theorem cleanupOldData_idem (now : ℤ) (d : AppData) :
    cleanupOldData now (cleanupOldData now d) = cleanupOldData now d := by
  simp [cleanupOldData, List.filter_filter, Bool.and_self]

theorem saveToStorage_loops (strLen : SData → ℕ) (now : ℤ) (d : AppData) (st : Store)
    (h1 : maxStorageSize < strLen (serializeData now d))
    (h2 : maxStorageSize < strLen (serializeData now (cleanupOldData now d)))
    (fuel : ℕ) :
    saveToStorage strLen now fuel d st = none := by
  induction fuel generalizing d with
  | zero => rfl
  | succ n ih =>
    show (if maxStorageSize < strLen (serializeData now d) then
            saveToStorage strLen now n (cleanupOldData now d) st
          else some { st with primary := some (.wellFormed (serializeData now d)) }) = none
    rw [if_pos h1]
    exact ih (cleanupOldData now d) h2 (by rw [cleanupOldData_idem]; exact h2)

/-- C2 (amended): when the serialized snapshot exceeds the 5 MiB quota,
`_saveToStorage` evicts 30-day-old trajectories and then recurses on itself with
NO retry bound; whenever one eviction pass does not bring the data under
quota (eviction is idempotent, so no later pass can either), the save
neither succeeds nor reports a failure — it keeps recursing (in the model:
yields `none` for every recursion budget; in a browser it recurses until
the call stack overflows). -/
theorem saveToStorage_unbounded_retry (strLen : SData → ℕ) (now : ℤ)
    (d : AppData) (st : Store)
    (h1 : maxStorageSize < strLen (serializeData now d))
    (h2 : maxStorageSize < strLen (serializeData now (cleanupOldData now d)))
    (fuel : ℕ) :
    saveToStorage strLen now fuel d st = none :=
  saveToStorage_loops strLen now d st h1 h2 fuel

theorem filter_replicate_of_true {α : Type} {p : α → Bool} {x : α}
    (h : p x = true) (n : ℕ) :
    (List.replicate n x).filter p = List.replicate n x := by
  induction n with
  | zero => rfl
  | succ m ih => simp [List.replicate_succ, h, ih]

theorem cleanup_dBig : cleanupOldData 0 dBig = dBig := by
  simp only [cleanupOldData, dBig]
  rw [filter_replicate_of_true (by decide)]

theorem szLB_dBig : maxStorageSize < szLB (serializeData 0 dBig) := by
  have h9 : (compressPoints (List.replicate 9 ptB)).length = 9 := by
    simp [compressPoints]
  have h : szLB (serializeData 0 dBig) = 20000 * (45 + 46 * 9) + 60 := by
    simp only [szLB, serializeData, dBig, routeB, List.map_replicate,
               List.map_nil, List.length_nil, List.sum_replicate, smul_eq_mul, h9]
  rw [h]
  decide

/-- Counterexample for C2: `dBig` serializes to more than 5 MiB of JSON,
`_cleanupOldData` removes none of its routes (all are recent), and the save
is still recursing after five eviction-and-retry rounds — the code performs
more than the claimed single retry and never reports the failure. -/
theorem save_quota_counterexample :
    maxStorageSize < szLB (serializeData 0 dBig) ∧
    cleanupOldData 0 dBig = dBig ∧
    saveToStorage szLB 0 5 dBig ⟨none, none⟩ = none := by
  refine ⟨szLB_dBig, cleanup_dBig, ?_⟩
  exact saveToStorage_loops szLB 0 dBig ⟨none, none⟩ szLB_dBig
    (by rw [cleanup_dBig]; exact szLB_dBig) 5

/-- Witness for C2's amended theorem at the concrete over-quota input. -/
theorem saveToStorage_unbounded_retry_witness :
    maxStorageSize < szLB (serializeData 0 dBig) ∧
    maxStorageSize < szLB (serializeData 0 (cleanupOldData 0 dBig)) ∧
    saveToStorage szLB 0 3 dBig ⟨none, none⟩ = none :=
  ⟨szLB_dBig, by rw [cleanup_dBig]; exact szLB_dBig,
   saveToStorage_unbounded_retry szLB 0 dBig ⟨none, none⟩ szLB_dBig
     (by rw [cleanup_dBig]; exact szLB_dBig) 3⟩

theorem gpsStep_eval_low (dist : ℚ → ℚ → ℚ → ℚ → ℚ) (s : GPSState) (f : PositionFix)
    (h : (if s.count + 1 < 5 then (200 : ℚ) else 100) < f.accuracy) :
    gpsStep dist s f =
      ⟨{ s with count := s.count + 1 }, .rejectedLowAccuracy f.accuracy, true⟩ := by
  simp only [gpsStep]
  rw [if_pos h]

theorem gpsStep_eval_noPrior (dist : ℚ → ℚ → ℚ → ℚ → ℚ) (s : GPSState) (f : PositionFix)
    (h : ¬ (if s.count + 1 < 5 then (200 : ℚ) else 100) < f.accuracy)
    (hl : s.lastValid = none) :
    gpsStep dist s f =
      ⟨⟨s.isTracking, s.isPaused,
        some ⟨f.lat, f.lng, f.accuracy, f.speed.getD 0, f.timestamp,
          s.isTracking && !s.isPaused⟩, s.count + 1⟩,
       .accepted ⟨f.lat, f.lng, f.accuracy, f.speed.getD 0, f.timestamp,
         s.isTracking && !s.isPaused⟩, false⟩ := by
  simp only [gpsStep]
  rw [if_neg h, hl]

theorem gpsStep_eval_speedRej (dist : ℚ → ℚ → ℚ → ℚ → ℚ) (s : GPSState)
    (f : PositionFix) (lv : LocationData)
    (h : ¬ (if s.count + 1 < 5 then (200 : ℚ) else 100) < f.accuracy)
    (hl : s.lastValid = some lv)
    (hr : speedRejects (dist lv.lat lv.lng f.lat f.lng)
      (((f.timestamp - lv.timestamp : ℤ) : ℚ) / 1000) = true) :
    gpsStep dist s f = ⟨{ s with count := s.count + 1 }, .rejectedSpeed, false⟩ := by
  simp only [gpsStep]
  rw [if_neg h, hl]
  simp only [hr, if_true]

theorem gpsStep_eval_accept (dist : ℚ → ℚ → ℚ → ℚ → ℚ) (s : GPSState)
    (f : PositionFix) (lv : LocationData)
    (h : ¬ (if s.count + 1 < 5 then (200 : ℚ) else 100) < f.accuracy)
    (hl : s.lastValid = some lv)
    (hr : speedRejects (dist lv.lat lv.lng f.lat f.lng)
      (((f.timestamp - lv.timestamp : ℤ) : ℚ) / 1000) = false) :
    gpsStep dist s f =
      ⟨⟨s.isTracking, s.isPaused,
        some ⟨f.lat, f.lng, f.accuracy, f.speed.getD 0, f.timestamp,
          s.isTracking && !s.isPaused⟩, s.count + 1⟩,
       .accepted ⟨f.lat, f.lng, f.accuracy, f.speed.getD 0, f.timestamp,
         s.isTracking && !s.isPaused⟩, false⟩ := by
  simp only [gpsStep]
  rw [if_neg h, hl]
  simp only [hr, Bool.false_eq_true, if_false]

/-- C3 (amended): the accuracy gate rejects a fix with the low-accuracy
reason exactly when its accuracy exceeds the active threshold, but the
threshold is selected by the number of RECEIVED fixes
(`this.locationUpdateCount`, incremented for every processed fix before the
gate, rejected ones included): 200 m for the first four received fixes and
100 m from the fifth received fix onward. -/
theorem gpsStep_lowAccuracy_iff (dist : ℚ → ℚ → ℚ → ℚ → ℚ)
    (s : GPSState) (f : PositionFix) :
    (gpsStep dist s f).result = .rejectedLowAccuracy f.accuracy ↔
      (if s.count + 1 < 5 then (200 : ℚ) else 100) < f.accuracy := by
  by_cases h : (if s.count + 1 < 5 then (200 : ℚ) else 100) < f.accuracy
  · simp [gpsStep, h]
  · simp only [gpsStep, if_neg h]
    cases s.lastValid with
    | none => simp [h]
    | some lv =>
      simp only []
      split
      · simp [h]
      · simp [h]

/-- Counterexample for C3: four fixes of accuracy 300 m are all rejected
(so zero fixes have been accepted), yet the fifth fix, at 150 m, is also
rejected with the low-accuracy reason — the code is already using the
100 m threshold because five fixes were RECEIVED, while the claim's
accepted-count rule (0 accepted < 5) would put the threshold at 200 m and
accept it. -/
theorem accuracy_gate_counterexample :
    runGps flatDist initGps
      [⟨0, 0, 300, none, 0⟩, ⟨0, 0, 300, none, 2000⟩, ⟨0, 0, 300, none, 4000⟩,
       ⟨0, 0, 300, none, 6000⟩, ⟨0, 0, 150, none, 8000⟩] =
      [(.rejectedLowAccuracy 300, true), (.rejectedLowAccuracy 300, true),
       (.rejectedLowAccuracy 300, true), (.rejectedLowAccuracy 300, true),
       (.rejectedLowAccuracy 150, true)] ∧
    (150 : ℚ) ≤ specAccuracyThreshold 0 := by
  constructor
  · decide
  · decide

theorem speedRejects_iff (d td : ℚ) (hd : 0 ≤ d) :
    speedRejects d td = true ↔
      (0 < td ∧ (55.6 : ℚ) < d / td) ∨ (td = 0 ∧ 0 < d) := by
  unfold speedRejects
  by_cases h : td = 0
  · simp [h]
  · simp only [if_neg h, decide_eq_true_eq]
    constructor
    · intro hlt
      rcases lt_trichotomy td 0 with hneg | hz | hpos
      · exfalso
        have hinv : td⁻¹ ≤ 0 := le_of_lt (inv_lt_zero.mpr hneg)
        have hle : d / td ≤ 0 := by
          rw [div_eq_mul_inv]
          exact mul_nonpos_of_nonneg_of_nonpos hd hinv
        linarith
      · exact absurd hz h
      · exact Or.inl ⟨hpos, hlt⟩
    · rintro (⟨_, hlt⟩ | ⟨hz, _⟩)
      · exact hlt
      · exact absurd hz h

/-- C4 (amended): given a nonnegative distance function (haversine is
nonnegative), a fix with a prior accepted fix is rejected by the
implied-speed filter exactly when the implied speed exceeds 55.6 m/s with a
POSITIVE elapsed time, or the elapsed time is zero with a positive
distance (the float quotient is then `+∞`).  In particular a negative
elapsed time — or zero elapsed time with zero distance (`NaN` quotient) —
is accepted, so `elapsedSeconds ≤ 0` is NOT uniformly treated as a
rejection. -/
theorem gpsStep_speed_gate (dist : ℚ → ℚ → ℚ → ℚ → ℚ)
    (hd : ∀ a b c e, 0 ≤ dist a b c e) (s : GPSState) (f : PositionFix) :
    (gpsStep dist s f).result = .rejectedSpeed ↔
      f.accuracy ≤ (if s.count + 1 < 5 then (200 : ℚ) else 100) ∧
      ∃ lv, s.lastValid = some lv ∧
        ((0 < ((f.timestamp - lv.timestamp : ℤ) : ℚ) / 1000 ∧
          (55.6 : ℚ) < dist lv.lat lv.lng f.lat f.lng /
            (((f.timestamp - lv.timestamp : ℤ) : ℚ) / 1000)) ∨
         (((f.timestamp - lv.timestamp : ℤ) : ℚ) / 1000 = 0 ∧
          0 < dist lv.lat lv.lng f.lat f.lng)) := by
  by_cases h : (if s.count + 1 < 5 then (200 : ℚ) else 100) < f.accuracy
  · rw [gpsStep_eval_low dist s f h]
    constructor
    · intro hcon
      exact absurd hcon (by simp)
    · rintro ⟨hacc, -⟩
      exact absurd h (not_lt.mpr hacc)
  · have hacc : f.accuracy ≤ (if s.count + 1 < 5 then (200 : ℚ) else 100) := not_lt.mp h
    cases hl : s.lastValid with
    | none =>
      rw [gpsStep_eval_noPrior dist s f h hl]
      constructor
      · intro hcon
        exact absurd hcon (by simp)
      · rintro ⟨-, lv2, hlv2, -⟩
        exact absurd hlv2 (by simp)
    | some lv =>
      by_cases hr : speedRejects (dist lv.lat lv.lng f.lat f.lng)
          (((f.timestamp - lv.timestamp : ℤ) : ℚ) / 1000) = true
      · rw [gpsStep_eval_speedRej dist s f lv h hl hr]
        refine iff_of_true rfl ⟨hacc, lv, rfl, ?_⟩
        exact (speedRejects_iff _ _ (hd lv.lat lv.lng f.lat f.lng)).mp hr
      · rw [gpsStep_eval_accept dist s f lv h hl (by simpa using hr)]
        constructor
        · intro hcon
          exact absurd hcon (by simp)
        · rintro ⟨-, lv2, hlv2, hcond⟩
          injection hlv2 with hlv2
          subst hlv2
          exact absurd ((speedRejects_iff _ _ (hd lv.lat lv.lng f.lat f.lng)).mpr hcond) hr

theorem qabs_nonneg (q : ℚ) : 0 ≤ qabs q := by
  unfold qabs
  split
  · linarith
  · linarith

theorem flatDist_nonneg : ∀ a b c e : ℚ, 0 ≤ flatDist a b c e :=
  fun _ _ _ _ => add_nonneg (qabs_nonneg _) (qabs_nonneg _)

/-- Witness for C4's amended theorem: the nonnegativity hypothesis is
discharged for `flatDist` and the characterization is instantiated at a
concrete state with a prior accepted fix. -/
theorem gpsStep_speed_gate_witness :
    (∀ a b c e : ℚ, 0 ≤ flatDist a b c e) ∧
    ((gpsStep flatDist ⟨true, false, some ⟨0, 0, 10, 0, 10000, true⟩, 1⟩
        ⟨3, 4, 10, none, 5000⟩).result = .rejectedSpeed ↔
      (10 : ℚ) ≤ (if 1 + 1 < 5 then (200 : ℚ) else 100) ∧
      ∃ lv, (GPSState.mk true false (some ⟨0, 0, 10, 0, 10000, true⟩) 1).lastValid = some lv ∧
        ((0 < (((5000 : ℤ) - lv.timestamp : ℤ) : ℚ) / 1000 ∧
          (55.6 : ℚ) < flatDist lv.lat lv.lng 3 4 /
            ((((5000 : ℤ) - lv.timestamp : ℤ) : ℚ) / 1000)) ∨
         ((((5000 : ℤ) - lv.timestamp : ℤ) : ℚ) / 1000 = 0 ∧
          0 < flatDist lv.lat lv.lng 3 4))) :=
  ⟨flatDist_nonneg,
   gpsStep_speed_gate flatDist flatDist_nonneg
     ⟨true, false, some ⟨0, 0, 10, 0, 10000, true⟩, 1⟩ ⟨3, 4, 10, none, 5000⟩⟩

/-- Counterexample for C4: a second fix whose timestamp lies 5 seconds
BEFORE the prior accepted fix (elapsed time −5 s ≤ 0) is ACCEPTED by the
filter — the negative implied speed never exceeds 55.6 — refuting the
claim that every `elapsed ≤ 0` fix is rejected. -/
theorem speed_gate_counterexample :
    runGps flatDist initGps [⟨0, 0, 10, none, 10000⟩, ⟨3, 4, 10, none, 5000⟩] =
      [(.accepted ⟨0, 0, 10, 0, 10000, true⟩, false),
       (.accepted ⟨3, 4, 10, 0, 5000, true⟩, false)] ∧
    ((5000 : ℤ) - 10000 ≤ 0) := by
  constructor
  · norm_num [runGps, gpsStep, speedRejects, flatDist, qabs, initGps]
  · norm_num

/-- C5 (amended): the error callback is invoked for a rejection exactly
when the rejection is the low-accuracy one; an implausible-speed rejection
only logs a console warning and returns, reporting nothing. -/
theorem gpsStep_report_iff (dist : ℚ → ℚ → ℚ → ℚ → ℚ)
    (s : GPSState) (f : PositionFix) :
    (gpsStep dist s f).errorReported = true ↔
      (gpsStep dist s f).result = .rejectedLowAccuracy f.accuracy := by
  by_cases h : (if s.count + 1 < 5 then (200 : ℚ) else 100) < f.accuracy
  · rw [gpsStep_eval_low dist s f h]
    simp
  · cases hl : s.lastValid with
    | none =>
      rw [gpsStep_eval_noPrior dist s f h hl]
      simp
    | some lv =>
      by_cases hr : speedRejects (dist lv.lat lv.lng f.lat f.lng)
          (((f.timestamp - lv.timestamp : ℤ) : ℚ) / 1000) = true
      · rw [gpsStep_eval_speedRej dist s f lv h hl hr]
        simp
      · rw [gpsStep_eval_accept dist s f lv h hl (by simpa using hr)]
        simp

/-- Counterexample for C5: a fix implying a speed of 140 m/s is rejected by
the implausible-speed filter, and the error/rejection callback is NOT
invoked (`errorReported = false`) — the rejection is silently dropped,
refuting the claim that every rejection is reported. -/
theorem silent_rejection_counterexample :
    runGps flatDist initGps [⟨0, 0, 10, none, 0⟩, ⟨100, 40, 10, none, 1000⟩] =
      [(.accepted ⟨0, 0, 10, 0, 0, true⟩, false), (.rejectedSpeed, false)] := by
  norm_num [runGps, gpsStep, speedRejects, flatDist, qabs, initGps]

theorem withIdxFrom_mem {α : Type} :
    ∀ (l : List α) (n : ℕ) (pr : ℕ × α), pr ∈ withIdxFrom n l →
      n ≤ pr.1 ∧ pr.1 < n + l.length
  | [], _, _, h => absurd h (by simp [withIdxFrom])
  | a :: as, n, pr, h => by
    simp only [withIdxFrom, List.mem_cons] at h
    rcases h with h | h
    · subst h
      simp
    · have := withIdxFrom_mem as (n + 1) pr h
      constructor
      · omega
      · simp only [List.length_cons]
        omega

theorem farthestAux_cases (p0 pe : Pt) :
    ∀ (l : List (ℕ × Pt)) (acc : ℚ × ℕ),
      farthestAux p0 pe l acc = acc ∨
      ∃ pr ∈ l, (farthestAux p0 pe l acc).2 = pr.1
  | [], acc => Or.inl rfl
  | (i, p) :: rest, acc => by
    simp only [farthestAux]
    by_cases hup : acc.1 < perpDistSq p p0 pe
    · rw [if_pos hup]
      rcases farthestAux_cases p0 pe rest (perpDistSq p p0 pe, i) with h | ⟨pr, hmem, hpr⟩
      · exact Or.inr ⟨(i, p), List.mem_cons_self _ _, by rw [h]⟩
      · exact Or.inr ⟨pr, List.mem_cons_of_mem _ hmem, hpr⟩
    · rw [if_neg hup]
      rcases farthestAux_cases p0 pe rest acc with h | ⟨pr, hmem, hpr⟩
      · exact Or.inl h
      · exact Or.inr ⟨pr, List.mem_cons_of_mem _ hmem, hpr⟩

theorem farthestPt_bound (pts : List Pt) (p0 pe : Pt) :
    (farthestPt pts p0 pe).2 = 0 ∨
    (1 ≤ (farthestPt pts p0 pe).2 ∧ (farthestPt pts p0 pe).2 + 2 ≤ pts.length) := by
  unfold farthestPt
  rcases farthestAux_cases p0 pe (withIdxFrom 1 ((pts.drop 1).dropLast)) (0, 0) with h | ⟨pr, hmem, hpr⟩
  · left
    rw [h]
  · right
    have hb := withIdxFrom_mem _ 1 pr hmem
    have hlen : ((pts.drop 1).dropLast).length = pts.length - 1 - 1 := by
      rw [List.length_dropLast, List.length_drop]
    rw [hpr]
    omega

theorem farthestPt_pos (pts : List Pt) (p0 pe : Pt)
    (h : 0 < (farthestPt pts p0 pe).1) : 1 ≤ (farthestPt pts p0 pe).2 := by
  unfold farthestPt at h ⊢
  rcases farthestAux_cases p0 pe (withIdxFrom 1 ((pts.drop 1).dropLast)) (0, 0) with heq | ⟨pr, hmem, hpr⟩
  · rw [heq] at h
    exact absurd h (by norm_num)
  · have hb := withIdxFrom_mem _ 1 pr hmem
    rw [hpr]
    exact hb.1

theorem simplifyPathF_cons_eq (tolSq : ℚ) (fuel : ℕ) (p0 : Pt) (rest : List Pt) :
    simplifyPathF tolSq (fuel + 1) (p0 :: rest) =
      if (p0 :: rest).length ≤ 2 then p0 :: rest
      else
        if tolSq < (farthestPt (p0 :: rest) p0
            ((p0 :: rest).getLast (List.cons_ne_nil p0 rest))).1 then
          (simplifyPathF tolSq fuel ((p0 :: rest).take ((farthestPt (p0 :: rest) p0
              ((p0 :: rest).getLast (List.cons_ne_nil p0 rest))).2 + 1))).dropLast
            ++ simplifyPathF tolSq fuel ((p0 :: rest).drop (farthestPt (p0 :: rest) p0
              ((p0 :: rest).getLast (List.cons_ne_nil p0 rest))).2)
        else [p0, (p0 :: rest).getLast (List.cons_ne_nil p0 rest)] := rfl

theorem simplifyPathF_singleton (tolSq : ℚ) (fuel : ℕ) (p : Pt) :
    simplifyPathF tolSq fuel [p] = [p] := by
  cases fuel with
  | zero => rfl
  | succ n => rfl

theorem simplifyPathF_two_le (tolSq : ℚ) :
    ∀ (fuel : ℕ) (pts : List Pt), 2 ≤ pts.length →
      2 ≤ (simplifyPathF tolSq fuel pts).length
  | 0, _, h => h
  | _ + 1, [], h => by simp at h
  | fuel + 1, p0 :: rest, h => by
    rw [simplifyPathF_cons_eq]
    by_cases hlen : (p0 :: rest).length ≤ 2
    · rw [if_pos hlen]
      exact h
    · rw [if_neg hlen]
      set fm := farthestPt (p0 :: rest) p0
        ((p0 :: rest).getLast (List.cons_ne_nil p0 rest)) with hfm
      by_cases htl : tolSq < fm.1
      · rw [if_pos htl]
        have hb := farthestPt_bound (p0 :: rest) p0
          ((p0 :: rest).getLast (List.cons_ne_nil p0 rest))
        rw [← hfm] at hb
        have hdrop : 2 ≤ ((p0 :: rest).drop fm.2).length := by
          rw [List.length_drop]
          rcases hb with h0 | ⟨h1, h2⟩
          · rw [h0]
            omega
          · omega
        have hrec := simplifyPathF_two_le tolSq fuel _ hdrop
        rw [List.length_append]
        omega
      · rw [if_neg htl]
        simp

theorem simplifyPathF_length_le (tolSq : ℚ) :
    ∀ (fuel : ℕ) (pts : List Pt),
      (simplifyPathF tolSq fuel pts).length ≤ pts.length
  | 0, _ => le_refl _
  | _ + 1, [] => by simp [simplifyPathF]
  | fuel + 1, p0 :: rest => by
    rw [simplifyPathF_cons_eq]
    by_cases hlen : (p0 :: rest).length ≤ 2
    · rw [if_pos hlen]
    · rw [if_neg hlen]
      set fm := farthestPt (p0 :: rest) p0
        ((p0 :: rest).getLast (List.cons_ne_nil p0 rest)) with hfm
      by_cases htl : tolSq < fm.1
      · rw [if_pos htl]
        have hb := farthestPt_bound (p0 :: rest) p0
          ((p0 :: rest).getLast (List.cons_ne_nil p0 rest))
        rw [← hfm] at hb
        have hleft := simplifyPathF_length_le tolSq fuel ((p0 :: rest).take (fm.2 + 1))
        have hright := simplifyPathF_length_le tolSq fuel ((p0 :: rest).drop fm.2)
        rw [List.length_take] at hleft
        rw [List.length_drop] at hright
        rw [List.length_append, List.length_dropLast]
        rcases hb with h0 | ⟨h1, h2⟩ <;> omega
      · rw [if_neg htl]
        simp only [List.length_cons, List.length_nil] at hlen ⊢
        omega

theorem dropLast_sublist_concat {α : Type} {l2 L : List α} {z : α}
    (h : l2.Sublist (L ++ [z])) : l2.dropLast.Sublist L := by
  rcases List.eq_nil_or_concat l2 with h0 | ⟨w, y, hwy⟩
  · subst h0
    simp
  · subst hwy
    rw [List.concat_eq_append] at h ⊢
    rw [List.dropLast_concat]
    have hr := h.reverse
    simp only [List.reverse_append, List.reverse_singleton, List.singleton_append] at hr
    have hwr : w.reverse.Sublist L.reverse := by
      cases hr with
      | cons _ h2 => exact (List.sublist_cons_self _ _).trans h2
      | cons₂ _ h2 => exact h2
    have hrr := hwr.reverse
    simpa using hrr

theorem simplifyPathF_sublist (tolSq : ℚ) :
    ∀ (fuel : ℕ) (pts : List Pt), (simplifyPathF tolSq fuel pts).Sublist pts
  | 0, _ => List.Sublist.refl _
  | _ + 1, [] => by simp [simplifyPathF]
  | fuel + 1, p0 :: rest => by
    rw [simplifyPathF_cons_eq]
    by_cases hlen : (p0 :: rest).length ≤ 2
    · rw [if_pos hlen]
    · rw [if_neg hlen]
      set fm := farthestPt (p0 :: rest) p0
        ((p0 :: rest).getLast (List.cons_ne_nil p0 rest)) with hfm
      by_cases htl : tolSq < fm.1
      · rw [if_pos htl]
        have hb := farthestPt_bound (p0 :: rest) p0
          ((p0 :: rest).getLast (List.cons_ne_nil p0 rest))
        rw [← hfm] at hb
        have hmi : fm.2 < (p0 :: rest).length := by
          rcases hb with h0 | ⟨h1, h2⟩ <;> omega
        have hsubL := simplifyPathF_sublist tolSq fuel ((p0 :: rest).take (fm.2 + 1))
        have hsubR := simplifyPathF_sublist tolSq fuel ((p0 :: rest).drop fm.2)
        have htake : (p0 :: rest).take (fm.2 + 1) =
            (p0 :: rest).take fm.2 ++ [(p0 :: rest)[fm.2]] := by
          rw [← List.take_concat_get _ _ hmi, List.concat_eq_append]
        have h1 : (simplifyPathF tolSq fuel
            ((p0 :: rest).take (fm.2 + 1))).dropLast.Sublist ((p0 :: rest).take fm.2) := by
          refine dropLast_sublist_concat (z := (p0 :: rest)[fm.2]) ?_
          rw [← htake]
          exact hsubL
        have h2 := List.Sublist.append h1 hsubR
        rw [List.take_append_drop] at h2
        exact h2
      · rw [if_neg htl]
        have hne : rest ≠ [] := by
          intro hcon
          rw [hcon] at hlen
          simp at hlen
        refine List.Sublist.cons₂ _ ?_
        rw [List.singleton_sublist, List.getLast_cons hne]
        exact List.getLast_mem hne

theorem headq_dropLast {α : Type} :
    ∀ (l : List α), 2 ≤ l.length → l.dropLast.head? = l.head?
  | [], h => by simp at h
  | [_], h => by simp at h
  | _ :: _ :: _, _ => rfl

theorem headq_append_left {α : Type} {l l2 : List α} {a : α}
    (h : l.head? = some a) : (l ++ l2).head? = some a := by
  cases l with
  | nil => simp at h
  | cons x t => simpa using h

theorem getLastq_drop {α : Type} :
    ∀ (l : List α) (n : ℕ), n < l.length → (l.drop n).getLast? = l.getLast?
  | _, 0, _ => by rw [List.drop_zero]
  | [], n + 1, h => by simp at h
  | a :: t, n + 1, h => by
    have ht : n < t.length := by
      simp only [List.length_cons] at h
      omega
    have hne : t ≠ [] := by
      intro hcon
      rw [hcon] at ht
      simp at ht
    cases t with
    | nil => exact absurd rfl hne
    | cons b t2 =>
      rw [List.drop_succ_cons, List.getLast?_cons_cons]
      exact getLastq_drop (b :: t2) n ht

theorem simplifyPathF_headq (tolSq : ℚ) :
    ∀ (fuel : ℕ) (pts : List Pt),
      (simplifyPathF tolSq fuel pts).head? = pts.head?
  | 0, _ => rfl
  | _ + 1, [] => rfl
  | fuel + 1, p0 :: rest => by
    rw [simplifyPathF_cons_eq]
    by_cases hlen : (p0 :: rest).length ≤ 2
    · rw [if_pos hlen]
    · rw [if_neg hlen]
      set fm := farthestPt (p0 :: rest) p0
        ((p0 :: rest).getLast (List.cons_ne_nil p0 rest)) with hfm
      by_cases htl : tolSq < fm.1
      · rw [if_pos htl]
        have hb := farthestPt_bound (p0 :: rest) p0
          ((p0 :: rest).getLast (List.cons_ne_nil p0 rest))
        rw [← hfm] at hb
        rcases hb with h0 | ⟨h1, h2⟩
        · rw [h0]
          have htk : (p0 :: rest).take (0 + 1) = [p0] := by
            rw [List.take_succ_cons, List.take_zero]
          rw [htk, simplifyPathF_singleton, List.drop_zero]
          simp only [List.dropLast_single, List.nil_append]
          exact simplifyPathF_headq tolSq fuel (p0 :: rest)
        · have htk2 : 2 ≤ ((p0 :: rest).take (fm.2 + 1)).length := by
            rw [List.length_take]
            simp only [List.length_cons] at h2 ⊢
            omega
          have hL2 := simplifyPathF_two_le tolSq fuel _ htk2
          have hLh := simplifyPathF_headq tolSq fuel ((p0 :: rest).take (fm.2 + 1))
          rw [List.take_succ_cons] at hLh
          simp only [List.head?_cons] at hLh
          refine headq_append_left ?_
          rw [headq_dropLast _ hL2]
          exact hLh
      · rw [if_neg htl]
        rfl

theorem simplifyPathF_lastq (tolSq : ℚ) :
    ∀ (fuel : ℕ) (pts : List Pt),
      (simplifyPathF tolSq fuel pts).getLast? = pts.getLast?
  | 0, _ => rfl
  | _ + 1, [] => rfl
  | fuel + 1, p0 :: rest => by
    rw [simplifyPathF_cons_eq]
    by_cases hlen : (p0 :: rest).length ≤ 2
    · rw [if_pos hlen]
    · rw [if_neg hlen]
      set fm := farthestPt (p0 :: rest) p0
        ((p0 :: rest).getLast (List.cons_ne_nil p0 rest)) with hfm
      by_cases htl : tolSq < fm.1
      · rw [if_pos htl]
        have hb := farthestPt_bound (p0 :: rest) p0
          ((p0 :: rest).getLast (List.cons_ne_nil p0 rest))
        rw [← hfm] at hb
        have hmi : fm.2 < (p0 :: rest).length := by
          rcases hb with h0 | ⟨h1, h2⟩ <;> omega
        have hd2 : 2 ≤ ((p0 :: rest).drop fm.2).length := by
          rw [List.length_drop]
          rcases hb with h0 | ⟨h1, h2⟩
          · rw [h0]
            omega
          · omega
        have hR2 := simplifyPathF_two_le tolSq fuel _ hd2
        have hRne : simplifyPathF tolSq fuel ((p0 :: rest).drop fm.2) ≠ [] := by
          intro hcon
          rw [hcon] at hR2
          simp at hR2
        rw [List.getLast?_append_of_ne_nil _ hRne]
        rw [simplifyPathF_lastq tolSq fuel ((p0 :: rest).drop fm.2)]
        exact getLastq_drop _ fm.2 hmi
      · rw [if_neg htl]
        have hne : (p0 :: rest) ≠ [] := List.cons_ne_nil p0 rest
        rw [List.getLast?_eq_getLast _ hne]
        rfl

theorem simplifyPathF_fuel_irrelevant (tolSq : ℚ) (htol : 0 ≤ tolSq) :
    ∀ (n : ℕ) (pts : List Pt) (f1 f2 : ℕ), pts.length ≤ n →
      pts.length ≤ f1 → pts.length ≤ f2 →
      simplifyPathF tolSq f1 pts = simplifyPathF tolSq f2 pts := by
  intro n
  induction n with
  | zero =>
    intro pts f1 f2 hn _ _
    have hnil : pts = [] := List.eq_nil_of_length_eq_zero (Nat.le_zero.mp hn)
    subst hnil
    cases f1 <;> cases f2 <;> rfl
  | succ m ih =>
    intro pts f1 f2 hn h1 h2
    cases pts with
    | nil => cases f1 <;> cases f2 <;> rfl
    | cons p0 rest =>
      cases f1 with
      | zero => simp at h1
      | succ g1 =>
        cases f2 with
        | zero => simp at h2
        | succ g2 =>
          rw [simplifyPathF_cons_eq, simplifyPathF_cons_eq]
          by_cases hlen : (p0 :: rest).length ≤ 2
          · rw [if_pos hlen, if_pos hlen]
          · rw [if_neg hlen, if_neg hlen]
            set fm := farthestPt (p0 :: rest) p0
              ((p0 :: rest).getLast (List.cons_ne_nil p0 rest)) with hfm
            by_cases htl : tolSq < fm.1
            · rw [if_pos htl, if_pos htl]
              have hpos : 0 < fm.1 := lt_of_le_of_lt htol htl
              have hp := farthestPt_pos (p0 :: rest) p0
                ((p0 :: rest).getLast (List.cons_ne_nil p0 rest))
                (by rw [← hfm]; exact hpos)
              rw [← hfm] at hp
              have hb := farthestPt_bound (p0 :: rest) p0
                ((p0 :: rest).getLast (List.cons_ne_nil p0 rest))
              rw [← hfm] at hb
              have hb2 : fm.2 + 2 ≤ (p0 :: rest).length := by
                rcases hb with h0 | ⟨-, hbb⟩
                · omega
                · exact hbb
              have hTn : ((p0 :: rest).take (fm.2 + 1)).length ≤ m := by
                rw [List.length_take]
                omega
              have hT1 : ((p0 :: rest).take (fm.2 + 1)).length ≤ g1 := by
                rw [List.length_take]
                omega
              have hT2 : ((p0 :: rest).take (fm.2 + 1)).length ≤ g2 := by
                rw [List.length_take]
                omega
              have hDn : ((p0 :: rest).drop fm.2).length ≤ m := by
                rw [List.length_drop]
                omega
              have hD1 : ((p0 :: rest).drop fm.2).length ≤ g1 := by
                rw [List.length_drop]
                omega
              have hD2 : ((p0 :: rest).drop fm.2).length ≤ g2 := by
                rw [List.length_drop]
                omega
              rw [ih ((p0 :: rest).take (fm.2 + 1)) g1 g2 hTn hT1 hT2]
              rw [ih ((p0 :: rest).drop fm.2) g1 g2 hDn hD1 hD2]
            · rw [if_neg htl, if_neg htl]

/-- C10: the output of `storage.js _simplifyPath` is an ordered subsequence
of its input (`List.Sublist`): every output point is one of the input
points, output points appear in the same relative order as in the input,
and multiplicities never exceed the input's — in particular the
`left.slice(0, -1).concat(right)` recombination never duplicates the split
point. -/
theorem simplifyPath_sublist (tolSq : ℚ) (pts : List Pt) :
    (simplifyPath tolSq pts).Sublist pts :=
  simplifyPathF_sublist tolSq pts.length pts

/-- C7 (amended): for every non-empty point sequence, Douglas-Peucker
simplification preserves the first and last points, returns an output no
longer than the input and never empty, and sequences with fewer than 10
points are not simplified at all — they are passed through subject only to
per-point rounding (`roundSPoint`), which rounds coordinates to 1e-6
degrees AND rounds the accuracy field to a whole number (the latter is not
part of the documented coordinate rounding, see the counterexample). -/
theorem simplifier_guarantees (pts : List Pt) (h : pts ≠ []) :
    (simplifyPath simTolSq pts).head? = pts.head? ∧
    (simplifyPath simTolSq pts).getLast? = pts.getLast? ∧
    (simplifyPath simTolSq pts).length ≤ pts.length ∧
    simplifyPath simTolSq pts ≠ [] ∧
    (pts.length < 10 → compressPoints pts = pts.map roundSPoint) := by
  refine ⟨simplifyPathF_headq _ _ _, simplifyPathF_lastq _ _ _,
    simplifyPathF_length_le _ _ _, ?_, ?_⟩
  · intro hcon
    have hh := simplifyPathF_headq simTolSq pts.length pts
    rw [show simplifyPathF simTolSq pts.length pts = simplifyPath simTolSq pts from rfl,
        hcon] at hh
    cases pts with
    | nil => exact h rfl
    | cons a t => simp at hh
  · intro hlt
    unfold compressPoints
    rw [if_pos hlt]

/-- Witness for C7 at a concrete three-point sequence. -/
theorem simplifier_guarantees_witness :
    ([⟨0, 0, 0, 1⟩, ⟨1, 1, 1000, 1⟩, ⟨2, 0, 2000, 1⟩] : List Pt) ≠ [] ∧
    ((simplifyPath simTolSq [⟨0, 0, 0, 1⟩, ⟨1, 1, 1000, 1⟩, ⟨2, 0, 2000, 1⟩]).head? =
        ([⟨0, 0, 0, 1⟩, ⟨1, 1, 1000, 1⟩, ⟨2, 0, 2000, 1⟩] : List Pt).head? ∧
     (simplifyPath simTolSq [⟨0, 0, 0, 1⟩, ⟨1, 1, 1000, 1⟩, ⟨2, 0, 2000, 1⟩]).getLast? =
        ([⟨0, 0, 0, 1⟩, ⟨1, 1, 1000, 1⟩, ⟨2, 0, 2000, 1⟩] : List Pt).getLast? ∧
     (simplifyPath simTolSq [⟨0, 0, 0, 1⟩, ⟨1, 1, 1000, 1⟩, ⟨2, 0, 2000, 1⟩]).length ≤
        ([⟨0, 0, 0, 1⟩, ⟨1, 1, 1000, 1⟩, ⟨2, 0, 2000, 1⟩] : List Pt).length ∧
     simplifyPath simTolSq [⟨0, 0, 0, 1⟩, ⟨1, 1, 1000, 1⟩, ⟨2, 0, 2000, 1⟩] ≠ [] ∧
     (([⟨0, 0, 0, 1⟩, ⟨1, 1, 1000, 1⟩, ⟨2, 0, 2000, 1⟩] : List Pt).length < 10 →
       compressPoints [⟨0, 0, 0, 1⟩, ⟨1, 1, 1000, 1⟩, ⟨2, 0, 2000, 1⟩] =
         ([⟨0, 0, 0, 1⟩, ⟨1, 1, 1000, 1⟩, ⟨2, 0, 2000, 1⟩] : List Pt).map roundSPoint)) :=
  ⟨by simp, simplifier_guarantees _ (by simp)⟩

/-- Counterexample for C7: a single-point sequence (fewer than 10 points)
is NOT passed through subject only to coordinate rounding — its accuracy
field of 10.5 m is rounded to 11, an alteration of a non-coordinate field
that the documented rounding does not cover. -/
theorem compress_rounding_counterexample :
    compressPoints [⟨0, 0, 0, 21/2⟩] = [⟨0, 0, 0, 11⟩] ∧
    ((21 : ℚ)/2 ≠ ((11 : ℤ) : ℚ)) := by
  constructor
  · norm_num [compressPoints, roundSPoint, round6, jsRound]
  · norm_num

/-- C8 (amended): one commit/load round trip (`loadFromStorage` after
`_serializeData`) reproduces the snapshot exactly up to these
transformations and no others: coordinates rounded to 1e-6 degrees,
route distances, `totalDistance` and point accuracies rounded to whole
numbers, point lists Douglas-Peucker-simplified when they hold at least 10
points, a route `endTime` equal to epoch 0 collapsed to absent (falsy
check), the stay areas' `drawn` promotion flag RESET to false (it is not
serialized), and no live `currentRoute` (it is not serialized either). -/
theorem serialize_roundTrip (now : ℤ) (d : AppData) :
    deserializeData (serializeData now d) = expectedRoundTrip now d := by
  unfold deserializeData serializeData expectedRoundTrip
  simp only [List.map_map]
  congr 1
  refine List.map_congr_left ?_
  intro r _
  simp only [Function.comp]
  congr 1
  unfold compressPoints
  by_cases hlt : r.points.length < 10
  · rw [if_pos hlt, if_pos hlt, List.map_map]
    refine List.map_congr_left ?_
    intro p _
    rfl
  · rw [if_neg hlt, if_neg hlt, List.map_map]
    refine List.map_congr_left ?_
    intro p _
    rfl

/-- Counterexample for C8: a promoted stay cluster (`drawn = true`) comes
back from a commit/load round trip with `drawn = false` — a field lost
outright, not a documented rounding of coordinates or distances. -/
theorem roundTrip_drawn_counterexample :
    (deserializeData (serializeData 5
        ⟨[], [⟨0, 0, 0, 3600000, 3600000, true⟩], 0, none⟩)).stayAreas =
      [⟨0, 0, 0, 3600000, 3600000, false⟩] ∧
    (StayArea.mk 0 0 0 3600000 3600000 true).drawn = true := by
  constructor
  · norm_num [deserializeData, serializeData, round6, jsRound]
  · rfl

theorem pathDist_append_single (dist : ℚ → ℚ → ℚ → ℚ → ℚ) :
    ∀ (pts : List Pt) (q : Pt),
      pathDist dist (pts ++ [q]) = pathDist dist pts +
        (match pts.getLast? with
         | some p => dist p.lat p.lng q.lat q.lng
         | none => 0)
  | [], q => by simp [pathDist]
  | [a], q => by simp [pathDist]
  | a :: b :: rest, q => by
    have ih := pathDist_append_single dist (b :: rest) q
    calc pathDist dist ((a :: b :: rest) ++ [q])
        = dist a.lat a.lng b.lat b.lng + pathDist dist ((b :: rest) ++ [q]) := rfl
      _ = dist a.lat a.lng b.lat b.lng + (pathDist dist (b :: rest) +
            (match (b :: rest).getLast? with
             | some p => dist p.lat p.lng q.lat q.lng
             | none => 0)) := by rw [ih]
      _ = (dist a.lat a.lng b.lat b.lng + pathDist dist (b :: rest)) +
            (match (b :: rest).getLast? with
             | some p => dist p.lat p.lng q.lat q.lng
             | none => 0) := by ring
      _ = pathDist dist (a :: b :: rest) +
            (match (a :: b :: rest).getLast? with
             | some p => dist p.lat p.lng q.lat q.lng
             | none => 0) := by rw [List.getLast?_cons_cons]; rfl

theorem deserializeData_no_currentRoute (sd : SData) :
    (deserializeData sd).currentRoute = none := rfl

theorem appInv_step (dist : ℚ → ℚ → ℚ → ℚ → ℚ) (s : AppState) (e : AppEvent)
    (hInv : AppInv dist s) : AppInv dist (applyEvent dist s e) := by
  obtain ⟨h1, h2, h3⟩ := hInv
  cases e with
  | trackStart id t =>
    simp only [applyEvent]
    by_cases ht : s.isTracking = true
    · rw [if_pos ht]
      exact ⟨h1, h2, h3⟩
    · rw [if_neg ht]
      have hcr : s.currentRoute = none := h3 (by simpa using ht)
      have hlp : s.lastPosition = none := h2 hcr
      refine ⟨?_, ?_, ?_⟩
      · intro r hr
        simp only [Option.some.injEq] at hr
        subst hr
        exact ⟨rfl, hlp⟩
      · intro hcon
        exact absurd hcon (by simp)
      · intro hcon
        exact absurd hcon (by simp)
  | pauseToggle =>
    simp only [applyEvent]
    by_cases ht : s.isTracking = true
    · rw [if_pos ht]
      exact ⟨h1, h2, h3⟩
    · rw [if_neg ht]
      exact ⟨h1, h2, h3⟩
  | trackStop t =>
    simp only [applyEvent]
    by_cases ht : s.isTracking = true
    · rw [if_pos ht]
      refine ⟨?_, fun _ => rfl, fun _ => rfl⟩
      intro r hr
      exact absurd hr (by simp)
    · rw [if_neg ht]
      exact ⟨h1, h2, h3⟩
  | gpsFix lat lng accuracy t =>
    simp only [applyEvent]
    cases hcr : s.currentRoute with
    | none => exact ⟨h1, h2, h3⟩
    | some r =>
      dsimp only
      by_cases htp : (s.isTracking && !s.isPaused) = true
      · rw [if_pos htp]
        obtain ⟨hdist, hsync⟩ := h1 r hcr
        refine ⟨?_, ?_, ?_⟩
        · intro r2 hr2
          simp only [Option.some.injEq] at hr2
          subst hr2
          refine ⟨?_, ?_⟩
          · simp only []
            rw [pathDist_append_single]
            cases hlast : r.points.getLast? with
            | none =>
              rw [hlast] at hsync
              simp only [hsync, hlast]
              rw [hdist]
            | some p =>
              rw [hlast] at hsync
              simp only [hsync, hlast]
              rw [hdist]
          · simp only [List.getLast?_concat]
        · intro hcon
          exact absurd hcon (by simp)
        · intro hf
          simp only [] at hf
          rw [hf] at htp
          simp at htp
      · rw [if_neg htp]
        exact ⟨h1, h2, h3⟩
  | loadData blob =>
    simp only [applyEvent]
    cases hpb : blob.bind parseBlob with
    | none => exact ⟨h1, h2, h3⟩
    | some sd =>
      simp only [deserializeData_no_currentRoute]
      exact ⟨h1, h2, h3⟩

theorem appInv_init (dist : ℚ → ℚ → ℚ → ℚ → ℚ) : AppInv dist initApp := by
  refine ⟨?_, fun _ => rfl, fun _ => rfl⟩
  intro r hr
  exact absurd hr (by simp [initApp])

theorem appInv_run (dist : ℚ → ℚ → ℚ → ℚ → ℚ) :
    ∀ (events : List AppEvent) (s : AppState), AppInv dist s →
      AppInv dist (events.foldl (applyEvent dist) s)
  | [], _, h => h
  | e :: es, s, h => appInv_run dist es _ (appInv_step dist s e h)

/-- C1: for every sequence of app events — session starts, pauses, stops,
accepted location updates appended to the live route, and restores of a
previously saved snapshot (`loadSavedData`, whose in-progress-route restore
branch can never fire because the store never serializes `currentRoute`) —
the live route's `distance` field equals the fold of the great-circle
distances between consecutive stored points, for any distance function and
any number of appends. -/
theorem currentRoute_distance (dist : ℚ → ℚ → ℚ → ℚ → ℚ)
    (events : List AppEvent) (r : Route)
    (h : (applyEvents dist events).currentRoute = some r) :
    r.distance = pathDist dist r.points :=
  ((appInv_run dist events initApp (appInv_init dist)).1 r h).1

/-- Witness for C1: a session with two accepted fixes, evaluated
concretely — the live route holds the two points and its distance field
equals the recomputed consecutive-pair sum. -/
theorem currentRoute_distance_witness :
    (applyEvents flatDist
        [.trackStart 1 0, .gpsFix 1 2 10 1000, .gpsFix 3 4 10 2000]).currentRoute =
      some ⟨1, [⟨1, 2, 1000, 10⟩, ⟨3, 4, 2000, 10⟩], 0, none, 4⟩ ∧
    (Route.mk 1 [⟨1, 2, 1000, 10⟩, ⟨3, 4, 2000, 10⟩] 0 none 4).distance =
      pathDist flatDist (Route.mk 1 [⟨1, 2, 1000, 10⟩, ⟨3, 4, 2000, 10⟩] 0 none 4).points :=
  ⟨by norm_num [applyEvents, applyEvent, initApp, checkStayArea, withIdxFrom,
      stayRadius, flatDist, qabs],
   currentRoute_distance flatDist
     [.trackStart 1 0, .gpsFix 1 2 10 1000, .gpsFix 3 4 10 2000] _
     (by norm_num [applyEvents, applyEvent, initApp, checkStayArea, withIdxFrom,
        stayRadius, flatDist, qabs])⟩

theorem getq_set_self {α : Type} :
    ∀ (l : List α) (i : ℕ) (a : α), i < l.length → (l.set i a).get? i = some a
  | [], _, _, h => by simp at h
  | _ :: _, 0, _, _ => rfl
  | _ :: t, i + 1, a, h =>
    getq_set_self t i a (by simpa using h)

theorem getq_set_other {α : Type} :
    ∀ (l : List α) (i j : ℕ) (a : α), i ≠ j → (l.set i a).get? j = l.get? j
  | [], _, _, _, _ => by simp
  | _ :: _, 0, 0, _, h => absurd rfl h
  | _ :: _, 0, _ + 1, _, _ => rfl
  | _ :: _, _ + 1, 0, _, _ => rfl
  | _ :: t, i + 1, j + 1, a, h =>
    getq_set_other t i j a (fun hc => h (by rw [hc]))

theorem withIdxFrom_mem_get {α : Type} :
    ∀ (l : List α) (n : ℕ) (i : ℕ) (x : α), (i, x) ∈ withIdxFrom n l →
      n ≤ i ∧ l.get? (i - n) = some x
  | [], _, _, _, h => absurd h (by simp [withIdxFrom])
  | a :: as, n, i, x, h => by
    simp only [withIdxFrom, List.mem_cons, Prod.mk.injEq] at h
    rcases h with ⟨hi, hx⟩ | h
    · subst hi
      subst hx
      simp
    · obtain ⟨hle, hget⟩ := withIdxFrom_mem_get as (n + 1) i x h
      refine ⟨by omega, ?_⟩
      have hsub : i - n = (i - (n + 1)) + 1 := by omega
      rw [hsub]
      simpa using hget

theorem checkStayArea_matched (dist : ℚ → ℚ → ℚ → ℚ → ℚ) (areas : List StayArea)
    (lat lng : ℚ) (t : ℤ) (i : ℕ) (a : StayArea)
    (hfind : (withIdxFrom 0 areas).reverse.find?
        (fun pr => decide (dist pr.2.lat pr.2.lng lat lng ≤ stayRadius)) = some (i, a)) :
    checkStayArea dist areas lat lng t =
      (areas.set i (StayArea.mk a.lat a.lng a.startTime t (t - a.startTime)
          (a.drawn || (decide (stayThreshold ≤ t - a.startTime) && !a.drawn))),
       if (decide (stayThreshold ≤ t - a.startTime) && !a.drawn) = true then some i
       else none) := by
  unfold checkStayArea
  rw [hfind]

theorem checkStayArea_created (dist : ℚ → ℚ → ℚ → ℚ → ℚ) (areas : List StayArea)
    (lat lng : ℚ) (t : ℤ)
    (hfind : (withIdxFrom 0 areas).reverse.find?
        (fun pr => decide (dist pr.2.lat pr.2.lng lat lng ≤ stayRadius)) = none) :
    checkStayArea dist areas lat lng t = (areas ++ [⟨lat, lng, t, t, 0, false⟩], none) := by
  unfold checkStayArea
  rw [hfind]

theorem matched_get (dist : ℚ → ℚ → ℚ → ℚ → ℚ) (areas : List StayArea)
    (lat lng : ℚ) (i : ℕ) (a : StayArea)
    (hfind : (withIdxFrom 0 areas).reverse.find?
        (fun pr => decide (dist pr.2.lat pr.2.lng lat lng ≤ stayRadius)) = some (i, a)) :
    areas.get? i = some a := by
  have hmem := List.mem_of_find?_eq_some hfind
  rw [List.mem_reverse] at hmem
  have := withIdxFrom_mem_get areas 0 i a hmem
  simpa using this.2

theorem getq_lt_length {α : Type} {l : List α} {j : ℕ} {x : α}
    (h : l.get? j = some x) : j < l.length := by
  by_contra hcon
  rw [List.get?_eq_none.mpr (by omega)] at h
  exact absurd h (by simp)

theorem stayStep_inv (dist : ℚ → ℚ → ℚ → ℚ → ℚ) (t0 : ℤ) (areas : List StayArea)
    (lat lng : ℚ) (t : ℤ) (hI : IStay t0 areas) (ht : t0 ≤ t) :
    IStay t (checkStayArea dist areas lat lng t).1 ∧
    (∀ j x y, areas.get? j = some x →
      (checkStayArea dist areas lat lng t).1.get? j = some y →
      x.duration ≤ y.duration) := by
  cases hfind : (withIdxFrom 0 areas).reverse.find?
      (fun pr => decide (dist pr.2.lat pr.2.lng lat lng ≤ stayRadius)) with
  | none =>
    rw [checkStayArea_created dist areas lat lng t hfind]
    constructor
    · intro b hb
      rcases List.mem_append.mp hb with hb | hb
      · obtain ⟨hd, hse, he, hdr⟩ := hI b hb
        exact ⟨hd, hse, le_trans he ht, hdr⟩
      · simp only [List.mem_singleton] at hb
        subst hb
        dsimp only
        exact ⟨by omega, le_refl t, le_refl t, by decide⟩
    · intro j x y hx hy
      have hjlt : j < areas.length := getq_lt_length hx
      rw [List.get?_append hjlt, hx] at hy
      injection hy with hy
      subst hy
      exact le_refl _
  | some pr =>
    obtain ⟨i, a⟩ := pr
    rw [checkStayArea_matched dist areas lat lng t i a hfind]
    have hga := matched_get dist areas lat lng i a hfind
    have hilt : i < areas.length := getq_lt_length hga
    obtain ⟨hda, hsea, hea, hdra⟩ := hI a (List.get?_mem hga)
    constructor
    · intro b hb
      rcases List.mem_or_eq_of_mem_set hb with hb | hb
      · obtain ⟨hd, hse, he, hdr⟩ := hI b hb
        exact ⟨hd, hse, le_trans he ht, hdr⟩
      · subst hb
        dsimp only
        refine ⟨rfl, by omega, le_refl t, ?_⟩
        cases hdrw : a.drawn with
        | false =>
          simp only [hdrw, Bool.false_or, Bool.not_false, Bool.and_true]
        | true =>
          rw [hdrw] at hdra
          have hth : stayThreshold ≤ a.duration := of_decide_eq_true hdra.symm
          have hth2 : stayThreshold ≤ t - a.startTime := by omega
          simp only [hdrw, Bool.true_or]
          rw [decide_eq_true hth2]
    · intro j x y hx hy
      by_cases hij : i = j
      · subst hij
        rw [getq_set_self areas i _ hilt] at hy
        injection hy with hy
        subst hy
        rw [hga] at hx
        injection hx with hx
        subst hx
        show a.duration ≤ t - a.startTime
        omega
      · rw [getq_set_other areas i j _ hij, hx] at hy
        injection hy with hy
        subst hy
        exact le_refl _

theorem stayStep_flag (dist : ℚ → ℚ → ℚ → ℚ → ℚ) (areas : List StayArea)
    (lat lng : ℚ) (t : ℤ) (j : ℕ) :
    ((checkStayArea dist areas lat lng t).2 = some j →
      drawnFlag areas j = false ∧
      drawnFlag (checkStayArea dist areas lat lng t).1 j = true) ∧
    ((checkStayArea dist areas lat lng t).2 ≠ some j →
      drawnFlag (checkStayArea dist areas lat lng t).1 j = drawnFlag areas j) := by
  cases hfind : (withIdxFrom 0 areas).reverse.find?
      (fun pr => decide (dist pr.2.lat pr.2.lng lat lng ≤ stayRadius)) with
  | none =>
    rw [checkStayArea_created dist areas lat lng t hfind]
    constructor
    · intro h
      exact absurd h (by simp)
    · intro _
      unfold drawnFlag
      rcases lt_trichotomy j areas.length with hj | hj | hj
      · rw [List.get?_append hj]
      · rw [hj, List.get?_concat_length, List.get?_eq_none.mpr (le_refl _)]
      · have hlen2 : areas.length ≤ j := by omega
        have hlen1 : (areas ++ [(⟨lat, lng, t, t, 0, false⟩ : StayArea)]).length ≤ j := by
          simp only [List.length_append, List.length_singleton]
          omega
        rw [List.get?_eq_none.mpr hlen1, List.get?_eq_none.mpr hlen2]
  | some pr =>
    obtain ⟨i, a⟩ := pr
    rw [checkStayArea_matched dist areas lat lng t i a hfind]
    have hga := matched_get dist areas lat lng i a hfind
    have hilt : i < areas.length := getq_lt_length hga
    dsimp only
    by_cases hpromo : (decide (stayThreshold ≤ t - a.startTime) && !a.drawn) = true
    · rw [if_pos hpromo]
      have hdf : a.drawn = false := by
        have := (Bool.and_eq_true _ _).mp hpromo
        simpa using this.2
      constructor
      · intro hj
        injection hj with hj
        subst hj
        constructor
        · unfold drawnFlag
          rw [hga]
          dsimp only
          exact hdf
        · unfold drawnFlag
          rw [getq_set_self areas i _ hilt]
          dsimp only
          rw [hpromo, Bool.or_true]
      · intro hj
        have hij : i ≠ j := fun hc => hj (by rw [hc])
        unfold drawnFlag
        rw [getq_set_other areas i j _ hij]
    · rw [if_neg hpromo]
      have hx : (decide (stayThreshold ≤ t - a.startTime) && !a.drawn) = false := by
        simpa using hpromo
      constructor
      · intro h
        exact absurd h (by simp)
      · intro _
        unfold drawnFlag
        by_cases hij : i = j
        · subst hij
          rw [getq_set_self areas i _ hilt, hga]
          dsimp only
          rw [hx, Bool.or_false]
        · rw [getq_set_other areas i j _ hij]

theorem stayStep_promo (dist : ℚ → ℚ → ℚ → ℚ → ℚ) (t0 : ℤ) (areas : List StayArea)
    (lat lng : ℚ) (t : ℤ) (hI : IStay t0 areas) (j : ℕ)
    (hp : (checkStayArea dist areas lat lng t).2 = some j) :
    ∃ x y, areas.get? j = some x ∧
      (checkStayArea dist areas lat lng t).1.get? j = some y ∧
      x.drawn = false ∧ y.drawn = true ∧
      x.duration < stayThreshold ∧ stayThreshold ≤ y.duration := by
  cases hfind : (withIdxFrom 0 areas).reverse.find?
      (fun pr => decide (dist pr.2.lat pr.2.lng lat lng ≤ stayRadius)) with
  | none =>
    rw [checkStayArea_created dist areas lat lng t hfind] at hp
    exact absurd hp (by simp)
  | some pr =>
    obtain ⟨i, a⟩ := pr
    rw [checkStayArea_matched dist areas lat lng t i a hfind] at hp ⊢
    dsimp only at hp ⊢
    by_cases hpromo : (decide (stayThreshold ≤ t - a.startTime) && !a.drawn) = true
    · rw [if_pos hpromo] at hp
      injection hp with hp
      subst hp
      have hga := matched_get dist areas lat lng i a hfind
      have hilt : i < areas.length := getq_lt_length hga
      obtain ⟨hthr, hnd⟩ := (Bool.and_eq_true _ _).mp hpromo
      have hdf : a.drawn = false := by simpa using hnd
      obtain ⟨hda, -, -, hdra⟩ := hI a (List.get?_mem hga)
      refine ⟨a, _, hga, getq_set_self areas i _ hilt, hdf, ?_, ?_, ?_⟩
      · dsimp only
        rw [hpromo, Bool.or_true]
      · rw [hdf] at hdra
        have hnth : ¬ stayThreshold ≤ a.duration := of_decide_eq_false hdra.symm
        omega
      · dsimp only
        exact of_decide_eq_true hthr
    · rw [if_neg hpromo] at hp
      exact absurd hp (by simp)

theorem stay_mono_aux (dist : ℚ → ℚ → ℚ → ℚ → ℚ) :
    ∀ (fixes : List StayFix) (areas : List StayArea) (t0 : ℤ),
      IStay t0 areas → List.Chain (fun a b => a ≤ b) t0 (fixes.map (·.t)) →
      ∀ k j x y, (stayRun dist areas (fixes.take k)).get? j = some x →
        (stayRun dist areas (fixes.take (k + 1))).get? j = some y →
        x.duration ≤ y.duration
  | [], areas, t0, _, _, k, j, x, y, hx, hy => by
    simp only [List.take_nil, stayRun] at hx hy
    rw [hx] at hy
    injection hy with hy
    subst hy
    exact le_refl _
  | f :: fs, areas, t0, hI, hch, k, j, x, y, hx, hy => by
    rw [List.map_cons, List.chain_cons] at hch
    obtain ⟨ht, hch2⟩ := hch
    cases k with
    | zero =>
      simp only [List.take_zero, stayRun, List.take_succ_cons, List.take_zero] at hx hy
      exact (stayStep_inv dist t0 areas f.lat f.lng f.t hI ht).2 j x y hx hy
    | succ k =>
      simp only [List.take_succ_cons, stayRun] at hx hy
      exact stay_mono_aux dist fs (checkStayArea dist areas f.lat f.lng f.t).1 f.t
        (stayStep_inv dist t0 areas f.lat f.lng f.t hI ht).1 hch2 k j x y hx hy

theorem stay_promo_aux (dist : ℚ → ℚ → ℚ → ℚ → ℚ) :
    ∀ (fixes : List StayFix) (areas : List StayArea) (t0 : ℤ),
      IStay t0 areas → List.Chain (fun a b => a ≤ b) t0 (fixes.map (·.t)) →
      ∀ k j, (stayPromos dist areas fixes).get? k = some (some j) →
        ∃ x y, (stayRun dist areas (fixes.take k)).get? j = some x ∧
          (stayRun dist areas (fixes.take (k + 1))).get? j = some y ∧
          x.drawn = false ∧ y.drawn = true ∧
          x.duration < stayThreshold ∧ stayThreshold ≤ y.duration
  | [], _, _, _, _, k, j, hk => by
    simp [stayPromos] at hk
  | f :: fs, areas, t0, hI, hch, k, j, hk => by
    rw [List.map_cons, List.chain_cons] at hch
    obtain ⟨ht, hch2⟩ := hch
    cases k with
    | zero =>
      simp only [stayPromos, List.get?_cons_zero] at hk
      injection hk with hk
      simp only [List.take_zero, stayRun, List.take_succ_cons]
      exact stayStep_promo dist t0 areas f.lat f.lng f.t hI j hk
    | succ k =>
      simp only [stayPromos, List.get?_cons_succ] at hk
      simp only [List.take_succ_cons, stayRun]
      exact stay_promo_aux dist fs (checkStayArea dist areas f.lat f.lng f.t).1 f.t
        (stayStep_inv dist t0 areas f.lat f.lng f.t hI ht).1 hch2 k j hk

theorem stay_flag_mono (dist : ℚ → ℚ → ℚ → ℚ → ℚ) :
    ∀ (fixes : List StayFix) (areas : List StayArea) (j : ℕ),
      drawnFlag areas j = true → drawnFlag (stayRun dist areas fixes) j = true
  | [], _, _, h => h
  | f :: fs, areas, j, h => by
    have hstep := stayStep_flag dist areas f.lat f.lng f.t j
    have hne : (checkStayArea dist areas f.lat f.lng f.t).2 ≠ some j := by
      intro hc
      have := (hstep.1 hc).1
      rw [h] at this
      exact absurd this (by simp)
    have hkeep := hstep.2 hne
    exact stay_flag_mono dist fs _ j (by rw [hkeep]; exact h)

theorem stay_count_aux (dist : ℚ → ℚ → ℚ → ℚ → ℚ) :
    ∀ (fixes : List StayFix) (areas : List StayArea) (j : ℕ),
      (stayPromos dist areas fixes).count (some j) =
        if drawnFlag (stayRun dist areas fixes) j = true ∧ drawnFlag areas j = false
        then 1 else 0
  | [], areas, j => by
    simp only [stayPromos, List.count_nil, stayRun]
    by_cases h : drawnFlag areas j = true
    · simp [h]
    · simp [h]
  | f :: fs, areas, j => by
    have hstep := stayStep_flag dist areas f.lat f.lng f.t j
    have ih := stay_count_aux dist fs (checkStayArea dist areas f.lat f.lng f.t).1 j
    simp only [stayPromos, List.count_cons, stayRun]
    by_cases hp : (checkStayArea dist areas f.lat f.lng f.t).2 = some j
    · obtain ⟨hbef, hmid⟩ := hstep.1 hp
      have hfin := stay_flag_mono dist fs _ j hmid
      rw [ih]
      simp [hfin, hmid, hbef, hp]
    · have hkeep := hstep.2 hp
      rw [ih, hkeep]
      simp [hp]

theorem lastT_cons (t0 : ℤ) (f : StayFix) (fs : List StayFix) :
    lastT t0 (f :: fs) = lastT f.t fs := by
  unfold lastT
  cases fs with
  | nil => rfl
  | cons g gs =>
    rw [List.getLast?_cons_cons]
    obtain ⟨x, hx⟩ : ∃ x, (g :: gs).getLast? = some x :=
      ⟨_, List.getLast?_eq_getLast _ (by simp)⟩
    rw [hx]

theorem stayRun_inv (dist : ℚ → ℚ → ℚ → ℚ → ℚ) :
    ∀ (fixes : List StayFix) (areas : List StayArea) (t0 : ℤ), IStay t0 areas →
      List.Chain (fun a b => a ≤ b) t0 (fixes.map (·.t)) →
      IStay (lastT t0 fixes) (stayRun dist areas fixes)
  | [], _, _, hI, _ => hI
  | f :: fs, areas, t0, hI, hch => by
    rw [List.map_cons, List.chain_cons] at hch
    rw [lastT_cons]
    exact stayRun_inv dist fs _ f.t
      (stayStep_inv dist t0 areas f.lat f.lng f.t hI hch.1).1 hch.2

/-- C6 (amended): within a single in-memory session — any sequence of
observed fixes with non-decreasing timestamps applied from an empty cluster
list — every cluster's `durationMs` is monotonically non-decreasing at each
step, every promotion event (`drawStayArea` plus the `drawn` flip) happens
exactly at a step where the matched cluster's duration first crosses
3,600,000 ms (flag `false` before, `true` after), and each cluster is
promoted exactly once if its final duration reaches the threshold and never
otherwise.  The claim's additional "including across a save/load" clause is
false: the `drawn` flag is not serialized, so it resets on load and the
promotion fires again (see the counterexample). -/
theorem stay_session (dist : ℚ → ℚ → ℚ → ℚ → ℚ) (fixes : List StayFix)
    (hmono : List.Chain' (fun a b => a.t ≤ b.t) fixes) :
    (∀ k j x y, (stayRun dist [] (fixes.take k)).get? j = some x →
        (stayRun dist [] (fixes.take (k + 1))).get? j = some y →
        x.duration ≤ y.duration) ∧
    (∀ k j, (stayPromos dist [] fixes).get? k = some (some j) →
        ∃ x y, (stayRun dist [] (fixes.take k)).get? j = some x ∧
          (stayRun dist [] (fixes.take (k + 1))).get? j = some y ∧
          x.drawn = false ∧ y.drawn = true ∧
          x.duration < stayThreshold ∧ stayThreshold ≤ y.duration) ∧
    (∀ j a, (stayRun dist [] fixes).get? j = some a →
        (stayPromos dist [] fixes).count (some j) =
          if stayThreshold ≤ a.duration then 1 else 0) := by
  cases fixes with
  | nil =>
    refine ⟨?_, ?_, ?_⟩
    · intro k j x y hx _
      simp [stayRun] at hx
    · intro k j hk
      simp [stayPromos] at hk
    · intro j a ha
      simp [stayRun] at ha
  | cons f0 rest =>
    have hchain : List.Chain (fun a b => a ≤ b) f0.t ((f0 :: rest).map (·.t)) := by
      rw [List.map_cons]
      have hmono2 : List.Chain (fun a b : StayFix => a.t ≤ b.t) f0 rest := hmono
      exact List.Chain.cons (le_refl f0.t)
        (List.chain_map_of_chain (fun x : StayFix => x.t) (fun a b h => h) hmono2)
    have hI0 : IStay f0.t ([] : List StayArea) := by
      intro a ha
      simp at ha
    refine ⟨stay_mono_aux dist (f0 :: rest) [] f0.t hI0 hchain,
            stay_promo_aux dist (f0 :: rest) [] f0.t hI0 hchain, ?_⟩
    intro j a ha
    have hInv := stayRun_inv dist (f0 :: rest) [] f0.t hI0 hchain
    obtain ⟨-, -, -, hdr⟩ := hInv a (List.get?_mem ha)
    rw [stay_count_aux dist (f0 :: rest) [] j]
    have hfl : drawnFlag (stayRun dist [] (f0 :: rest)) j = a.drawn := by
      unfold drawnFlag
      rw [ha]
    have hfl0 : drawnFlag ([] : List StayArea) j = false := rfl
    by_cases hth : stayThreshold ≤ a.duration
    · rw [if_pos hth]
      have hat : a.drawn = true := by
        rw [hdr]
        exact decide_eq_true hth
      simp [hfl, hat, hfl0]
    · rw [if_neg hth]
      have haf : a.drawn = false := by
        rw [hdr]
        exact decide_eq_false hth
      simp [hfl, haf, hfl0]

/-- Witness for C6 at a concrete two-fix session whose second fix reaches
the one-hour threshold. -/
theorem stay_session_witness :
    List.Chain' (fun a b : StayFix => a.t ≤ b.t) [⟨0, 0, 0⟩, ⟨0, 0, 3600000⟩] ∧
    ((∀ k j x y,
        (stayRun flatDist [] (([⟨0, 0, 0⟩, ⟨0, 0, 3600000⟩] : List StayFix).take k)).get? j =
          some x →
        (stayRun flatDist []
            (([⟨0, 0, 0⟩, ⟨0, 0, 3600000⟩] : List StayFix).take (k + 1))).get? j = some y →
        x.duration ≤ y.duration) ∧
     (∀ k j, (stayPromos flatDist [] [⟨0, 0, 0⟩, ⟨0, 0, 3600000⟩]).get? k = some (some j) →
        ∃ x y,
          (stayRun flatDist [] (([⟨0, 0, 0⟩, ⟨0, 0, 3600000⟩] : List StayFix).take k)).get? j =
            some x ∧
          (stayRun flatDist []
              (([⟨0, 0, 0⟩, ⟨0, 0, 3600000⟩] : List StayFix).take (k + 1))).get? j = some y ∧
          x.drawn = false ∧ y.drawn = true ∧
          x.duration < stayThreshold ∧ stayThreshold ≤ y.duration) ∧
     (∀ j a, (stayRun flatDist [] [⟨0, 0, 0⟩, ⟨0, 0, 3600000⟩]).get? j = some a →
        (stayPromos flatDist [] [⟨0, 0, 0⟩, ⟨0, 0, 3600000⟩]).count (some j) =
          if stayThreshold ≤ a.duration then 1 else 0)) :=
  ⟨by simp [List.chain'_cons, List.chain'_singleton],
   stay_session flatDist [⟨0, 0, 0⟩, ⟨0, 0, 3600000⟩]
     (by simp [List.chain'_cons, List.chain'_singleton])⟩

/-- Counterexample for C6: a cluster is promoted when its duration reaches
one hour (`drawn` flips false→true and the marker event fires), but a
serialize/deserialize round trip drops the `drawn` flag, so the reloaded
cluster reads `drawn = false` and the very next in-radius fix fires the
promotion AGAIN — the false→true transition is not unique across a
save/load. -/
theorem stay_promotion_counterexample :
    (checkStayArea flatDist [⟨0, 0, 0, 0, 0, false⟩] 0 0 3600000).2 = some 0 ∧
    (checkStayArea flatDist [⟨0, 0, 0, 0, 0, false⟩] 0 0 3600000).1 =
      [⟨0, 0, 0, 3600000, 3600000, true⟩] ∧
    (deserializeData (serializeData 7
        ⟨[], [⟨0, 0, 0, 3600000, 3600000, true⟩], 0, none⟩)).stayAreas =
      [⟨0, 0, 0, 3600000, 3600000, false⟩] ∧
    (checkStayArea flatDist [⟨0, 0, 0, 3600000, 3600000, false⟩] 0 0 3700000).2 = some 0 := by
  refine ⟨?_, ?_, ?_, ?_⟩
  · norm_num [checkStayArea, withIdxFrom, stayRadius, stayThreshold, flatDist, qabs,
      List.find?]
  · norm_num [checkStayArea, withIdxFrom, stayRadius, stayThreshold, flatDist, qabs,
      List.find?]
  · norm_num [deserializeData, serializeData, round6, jsRound]
  · norm_num [checkStayArea, withIdxFrom, stayRadius, stayThreshold, flatDist, qabs,
      List.find?]
